import Mathlib

/-!
Verification of the component-rpc JSON codec: the type/value model, the tree
decoder `json_to_val`, the encoder `val_to_json`, the streaming (serde visitor)
decoder `deserialize_val`, and the default-value synthesizer `default_val`,
shallowly embedded from the Rust source.
-/

set_option maxHeartbeats 1000000
set_option maxRecDepth 8000
set_option linter.unreachableTactic false
set_option linter.unusedTactic false

/-- Model of Rust `f32`/`f64` values as used by the codec: a single canonical
NaN, the two infinities, and finite values carried exactly as rationals.
The codec never performs float arithmetic, only classification
(`is_nan`, `is_infinite`, `is_sign_negative`) and exact conversions, so this
symbolic model is adequate. -/
inductive Fl
  | nan
  | inf
  | neginf
  | finite (q : Rat)
deriving DecidableEq, Repr

/-- `serde_json::Number`: either an integer (PosInt/NegInt, modelled by sign)
or a finite float (`Number::from_f64` rejects non-finite values, so only
finite floats occur). -/
inductive JNum
  | int (i : Int)
  | float (q : Rat)
deriving DecidableEq, Repr

/-- `serde_json::Value`. Objects are modelled as association lists; real
`serde_json` maps have unique keys, and the decoders only perform
key lookups/removals, which the list model reproduces. -/
inductive Json
  | null
  | bool (b : Bool)
  | num (n : JNum)
  | str (s : String)
  | arr (els : List Json)
  | obj (kvs : List (String × Json))
deriving Repr

/-- `wasmtime::component::Type`: the closed recursive type-descriptor
grammar. -/
inductive Ty
  | bool
  | u8 | u16 | u32 | u64
  | s8 | s16 | s32 | s64
  | float32 | float64
  | char
  | string
  | list (elem : Ty)
  | record (fields : List (String × Ty))
  | tuple (slots : List Ty)
  | variant (cases : List (String × Option Ty))
  | enum (names : List String)
  | union (cases : List Ty)
  | option (inner : Ty)
  | result (ok : Option Ty) (err : Option Ty)
  | flags (names : List String)
deriving Repr

/-- `wasmtime::component::Val`: the runtime value model. `result` carries
`ok = true` for the `Ok` branch. Flags values are kept in canonical form
(declaration-ordered subset), matching `Flags::flags()` iteration order. -/
inductive Val
  | bool (b : Bool)
  | u8 (n : Nat) | u16 (n : Nat) | u32 (n : Nat) | u64 (n : Nat)
  | s8 (i : Int) | s16 (i : Int) | s32 (i : Int) | s64 (i : Int)
  | float32 (f : Fl) | float64 (f : Fl)
  | char (c : Char)
  | string (s : String)
  | list (vs : List Val)
  | record (fields : List (String × Val))
  | tuple (vs : List Val)
  | variant (case : String) (payload : Option Val)
  | enum (name : String)
  | union (idx : Nat) (payload : Val)
  | option (v : Option Val)
  | result (isOk : Bool) (payload : Option Val)
  | flags (names : List String)
deriving Repr

/-- Decode errors, abstracting the `anyhow`/serde error messages of the source
into the error taxonomy (type mismatch, out-of-range narrowing, arity
mismatch, unknown case/flag/field, malformed key, cardinality of
single-key objects, streaming-only errors). -/
inductive DecodeErr
  | typeMismatch (expected : String)
  | outOfRange (expected : String)
  | arityMismatch (expected : Nat)
  | notSingleKey (got : Nat)
  | unknownCase (name : String)
  | noSuchCase (idx : Nat)
  | malformedKey (key : String)
  | unknownFlag (name : String)
  | unknownField (name : String)
  | missingField
  | emptyMap (expected : String)
  | tooMany (expected : Nat)
  | invalidLength (got : Nat)
  | notOneChar
  | badBase64
deriving DecidableEq, Repr

/-! ## Small helpers shared by the decoders -/

/-- First-match association lookup, modelling `serde_json::Map::get`/`remove`'s
returned value (real maps have unique keys). -/
def jLookup (k : String) : List (String × Json) → Option Json
  | [] => none
  | (k2, v) :: rest => if k2 = k then some v else jLookup k rest

/-- Remove the first binding of `k`, modelling `serde_json::Map::remove`. -/
def jRemove (k : String) : List (String × Json) → List (String × Json)
  | [] => []
  | (k2, v) :: rest => if k2 = k then rest else (k2, v) :: jRemove k rest

/-- `variant.cases().find(|case| case.name == key)`: the first case with the
given name, returning its optional payload type. -/
def caseLookup (k : String) : List (String × Option Ty) → Option (Option Ty)
  | [] => none
  | (n, pt) :: rest => if n = k then some pt else caseLookup k rest

/-! ## Decimal rendering and parsing of union keys

`val_to_json` renders a union discriminant with `u32::to_string` and
`json_to_val` parses it back with `str::parse::<u32>`. -/

def decDigit (d : Nat) : Char := Char.ofNat (48 + d)

def renderDecList (n : Nat) : List Char :=
  if _h : n < 10 then [decDigit n]
  else renderDecList (n / 10) ++ [decDigit (n % 10)]
termination_by n
decreasing_by simp_wf; omega

/-- `u32::to_string` for a union discriminant. -/
def natKey (n : Nat) : String := ⟨renderDecList n⟩

def digitVal (c : Char) : Option Nat :=
  if 48 ≤ c.toNat ∧ c.toNat ≤ 57 then some (c.toNat - 48) else none

def parseDecAux (acc : Nat) : List Char → Option Nat
  | [] => some acc
  | c :: cs =>
    match digitVal c with
    | some d => parseDecAux (acc * 10 + d) cs
    | none => none

/-- `str::parse::<u32>` on a non-negative decimal numeral (the `u32` overflow
bound is not modelled: overflowing keys index far out of bounds and fail
either way). -/
def parseDec (s : String) : Option Nat :=
  if s.toList.isEmpty then none else parseDecAux 0 s.toList

theorem digitVal_decDigit (d : Nat) (h : d < 10) : digitVal (decDigit d) = some d := by
  interval_cases d <;> decide

theorem parseDecAux_append (acc : Nat) (xs ys : List Char) :
    parseDecAux acc (xs ++ ys) =
      match parseDecAux acc xs with
      | some a => parseDecAux a ys
      | none => none := by
  induction xs generalizing acc with
  | nil => simp [parseDecAux]
  | cons c cs ih =>
    simp only [List.cons_append, parseDecAux]
    cases digitVal c <;> simp [ih]

theorem renderDecList_ne_nil (n : Nat) : renderDecList n ≠ [] := by
  rw [renderDecList]
  split
  · simp
  · simp

theorem parseDecAux_renderDecList (n : Nat) : ∀ acc : Nat,
    parseDecAux acc (renderDecList n) = some (acc * 10 ^ (renderDecList n).length + n) := by
  induction n using Nat.strong_induction_on with
  | _ n ih =>
    intro acc
    rw [renderDecList]
    by_cases h : n < 10
    · simp only [h, dite_true, parseDecAux, digitVal_decDigit n h]
      simp
    · simp only [h, dite_false]
      rw [parseDecAux_append]
      have hlt : n / 10 < n := Nat.div_lt_self (by omega) (by omega)
      rw [ih (n / 10) hlt acc]
      simp only [parseDecAux, digitVal_decDigit (n % 10) (by omega)]
      simp only [List.length_append, List.length_cons, List.length_nil]
      congr 1
      have hmod : 10 * (n / 10) + n % 10 = n := Nat.div_add_mod n 10
      ring_nf
      omega

theorem parseDec_natKey (n : Nat) : parseDec (natKey n) = some n := by
  have hl : (natKey n).toList = renderDecList n := rfl
  rw [parseDec, hl]
  rw [if_neg (by simpa using renderDecList_ne_nil n)]
  rw [parseDecAux_renderDecList]
  simp

/-! ## Standard base64 (RFC 4648), as used by `base64::decode` for
string-encoded byte lists in the streaming decoder. Canonical padded form. -/

def b64Char (n : Nat) : Char :=
  if n < 26 then Char.ofNat (65 + n)
  else if n < 52 then Char.ofNat (97 + (n - 26))
  else if n < 62 then Char.ofNat (48 + (n - 52))
  else if n = 62 then '+'
  else '/'

def b64Index (c : Char) : Option Nat :=
  if 65 ≤ c.toNat ∧ c.toNat ≤ 90 then some (c.toNat - 65)
  else if 97 ≤ c.toNat ∧ c.toNat ≤ 122 then some (26 + (c.toNat - 97))
  else if 48 ≤ c.toNat ∧ c.toNat ≤ 57 then some (52 + (c.toNat - 48))
  else if c = '+' then some 62
  else if c = '/' then some 63
  else none

def base64EncodeChunks : List Nat → List Char
  | [] => []
  | [b0] => [b64Char (b0 / 4), b64Char (b0 % 4 * 16), '=', '=']
  | [b0, b1] => [b64Char (b0 / 4), b64Char (b0 % 4 * 16 + b1 / 16), b64Char (b1 % 16 * 4), '=']
  | b0 :: b1 :: b2 :: rest =>
    b64Char (b0 / 4) :: b64Char (b0 % 4 * 16 + b1 / 16) ::
      b64Char (b1 % 16 * 4 + b2 / 64) :: b64Char (b2 % 64) :: base64EncodeChunks rest

def base64Encode (bs : List Nat) : String := ⟨base64EncodeChunks bs⟩

def base64DecodeChunks : List Char → Option (List Nat)
  | [] => some []
  | c0 :: c1 :: c2 :: c3 :: rest =>
    match b64Index c0, b64Index c1 with
    | some n0, some n1 =>
      if c2 = '=' then
        if c3 = '=' ∧ rest = [] ∧ n1 % 16 = 0 then some [n0 * 4 + n1 / 16] else none
      else
        match b64Index c2 with
        | some n2 =>
          if c3 = '=' then
            if rest = [] ∧ n2 % 4 = 0 then some [n0 * 4 + n1 / 16, n1 % 16 * 16 + n2 / 4]
            else none
          else
            match b64Index c3 with
            | some n3 =>
              (base64DecodeChunks rest).map
                (fun bs => (n0 * 4 + n1 / 16) :: (n1 % 16 * 16 + n2 / 4) :: (n2 % 4 * 64 + n3) :: bs)
            | none => none
        | none => none
    | _, _ => none
  | _ => none

def base64Decode (s : String) : Option (List Nat) := base64DecodeChunks s.toList

theorem b64Index_b64Char_fin : ∀ n : Fin 64, b64Index (b64Char n.val) = some n.val := by decide

theorem b64Char_ne_eq_fin : ∀ n : Fin 64, b64Char n.val ≠ '=' := by decide

theorem b64Index_b64Char (n : Nat) (h : n < 64) : b64Index (b64Char n) = some n :=
  b64Index_b64Char_fin ⟨n, h⟩

theorem b64Char_ne_eq (n : Nat) (h : n < 64) : b64Char n ≠ '=' :=
  b64Char_ne_eq_fin ⟨n, h⟩

theorem base64_roundtrip : ∀ bs : List Nat, (∀ b ∈ bs, b < 256) →
    base64DecodeChunks (base64EncodeChunks bs) = some bs := by
  intro bs
  induction bs using base64EncodeChunks.induct with
  | case1 => intro _; rfl
  | case2 b0 =>
    intro hb
    have h0 : b0 < 256 := hb b0 (by simp)
    have e1 := b64Index_b64Char (b0 / 4) (by omega)
    have e2 := b64Index_b64Char (b0 % 4 * 16) (by omega)
    have a1 : b0 / 4 * 4 + b0 % 4 * 16 / 16 = b0 := by omega
    have a2 : b0 % 4 * 16 % 16 = 0 := by omega
    simp [base64EncodeChunks, base64DecodeChunks, e1, e2, a1, a2]
    all_goals omega
  | case3 b0 b1 =>
    intro hb
    have h0 : b0 < 256 := hb b0 (by simp)
    have h1 : b1 < 256 := hb b1 (by simp)
    have e1 := b64Index_b64Char (b0 / 4) (by omega)
    have e2 := b64Index_b64Char (b0 % 4 * 16 + b1 / 16) (by omega)
    have e3 := b64Index_b64Char (b1 % 16 * 4) (by omega)
    have hne := b64Char_ne_eq (b1 % 16 * 4) (by omega)
    have a1 : b0 / 4 * 4 + (b0 % 4 * 16 + b1 / 16) / 16 = b0 := by omega
    have a2 : b1 % 16 * 4 % 4 = 0 := by omega
    have a3 : (b0 % 4 * 16 + b1 / 16) % 16 * 16 + b1 % 16 * 4 / 4 = b1 := by omega
    simp [base64EncodeChunks, base64DecodeChunks, e1, e2, e3, hne, a1, a2, a3]
    all_goals omega
  | case4 b0 b1 b2 rest ih =>
    intro hb
    have h0 : b0 < 256 := hb b0 (by simp)
    have h1 : b1 < 256 := hb b1 (by simp)
    have h2 : b2 < 256 := hb b2 (by simp)
    have hrest : ∀ b ∈ rest, b < 256 := fun b h => hb b (by simp [h])
    have e1 := b64Index_b64Char (b0 / 4) (by omega)
    have e2 := b64Index_b64Char (b0 % 4 * 16 + b1 / 16) (by omega)
    have e3 := b64Index_b64Char (b1 % 16 * 4 + b2 / 64) (by omega)
    have e4 := b64Index_b64Char (b2 % 64) (by omega)
    have hne3 := b64Char_ne_eq (b1 % 16 * 4 + b2 / 64) (by omega)
    have hne4 := b64Char_ne_eq (b2 % 64) (by omega)
    have a1 : b0 / 4 * 4 + (b0 % 4 * 16 + b1 / 16) / 16 = b0 := by omega
    have a2 : (b0 % 4 * 16 + b1 / 16) % 16 * 16 + (b1 % 16 * 4 + b2 / 64) / 4 = b1 := by omega
    have a3 : (b1 % 16 * 4 + b2 / 64) % 4 * 64 + b2 % 64 = b2 := by omega
    simp [base64EncodeChunks, base64DecodeChunks, e1, e2, e3, e4, hne3, hne4, a1, a2, a3,
      ih hrest]

/-! ## Encoder: `val_to_json` (Value → External Representation) -/

/-- Float special-value spelling in `val_to_json`. The source checks
`is_nan` first, then `is_infinite`, but the infinite branch maps
`is_sign_negative` to `"Infinity"` and the positive sign to `"-Infinity"`:
the two spellings are swapped relative to the decoder. -/
def floatToJson : Fl → Json
  | .nan => .str "NaN"
  | .inf => .str "-Infinity"
  | .neginf => .str "Infinity"
  | .finite q => .num (.float q)

mutual

/-- `val_to_json` from `src/lib.rs`. Total, as in the source. -/
def val_to_json : Val → Json
  | .bool b => .bool b
  | .u8 n => .num (.int n)
  | .u16 n => .num (.int n)
  | .u32 n => .num (.int n)
  | .u64 n => .num (.int n)
  | .s8 i => .num (.int i)
  | .s16 i => .num (.int i)
  | .s32 i => .num (.int i)
  | .s64 i => .num (.int i)
  | .float32 f => floatToJson f
  | .float64 f => floatToJson f
  | .char c => .str ⟨[c]⟩
  | .string s => .str s
  | .list vs => .arr (valsToJson vs)
  | .record fvs => .obj (fieldsToJson fvs)
  | .tuple vs => .arr (valsToJson vs)
  | .variant k pl => .obj [(k, option_val_to_json pl)]
  | .enum n => .str n
  | .union i v => .obj [(natKey i, val_to_json v)]
  | .option o => option_val_to_json o
  | .result isOk pl => .obj [(if isOk then "result" else "error", option_val_to_json pl)]
  | .flags ns => .arr (ns.map .str)

/-- `option_val_to_json` from `src/lib.rs`. -/
def option_val_to_json : Option Val → Json
  | some v => val_to_json v
  | none => .null

def valsToJson : List Val → List Json
  | [] => []
  | v :: vs => val_to_json v :: valsToJson vs

def fieldsToJson : List (String × Val) → List (String × Json)
  | [] => []
  | (n, v) :: fvs => (n, val_to_json v) :: fieldsToJson fvs

end

/-! ## Tree decoder: `json_to_val` (External Representation → Value) -/

/-- `get_single_entry_json` from `src/lib.rs`: require an object with exactly
one entry. -/
def get_single_entry_json : Json → Except DecodeErr (String × Json)
  | .obj [(k, v)] => .ok (k, v)
  | .obj kvs => .error (.notSingleKey kvs.length)
  | _ => .error (.typeMismatch "object")

/-- `serde_json::from_value::<uN>`: an integer number token in `[0, bound)`;
a wrong token kind is a type mismatch, a wrong value an out-of-range error. -/
def decodeU (bound : Nat) (desc : String) : Json → Except DecodeErr Nat
  | .num (.int i) => if 0 ≤ i ∧ i < bound then .ok i.toNat else .error (.outOfRange desc)
  | _ => .error (.typeMismatch desc)

/-- `serde_json::from_value::<sN>`: an integer number token in `[lo, hi]`. -/
def decodeS (lo hi : Int) (desc : String) : Json → Except DecodeErr Int
  | .num (.int i) => if lo ≤ i ∧ i ≤ hi then .ok i else .error (.outOfRange desc)
  | _ => .error (.typeMismatch desc)

/-- `serde_json::from_value::<f32/f64>`: serde float targets accept both
float and integer number tokens (integers are cast). The `f64`-to-`f32`
rounding of real floats is not modelled; finite values stay exact. -/
def decodeF (desc : String) : Json → Except DecodeErr Fl
  | .num (.int i) => .ok (.finite i)
  | .num (.float q) => .ok (.finite q)
  | _ => .error (.typeMismatch desc)

/-- `serde_json::from_value::<char>`: a string containing exactly one char. -/
def decodeChar : Json → Except DecodeErr Val
  | .str s =>
    match s.toList with
    | [c] => .ok (.char c)
    | _ => .error (.typeMismatch "char")
  | _ => .error (.typeMismatch "char")

/-- `serde_json::from_value::<Vec<String>>`: every element must be a string. -/
def asStringsList : List Json → Option (List String)
  | [] => some []
  | .str s :: rest => (asStringsList rest).map (s :: ·)
  | _ => none

/-- `Flags::new_val` membership check: first name not among the declared
ones, if any. -/
def firstUnknown (declared : List String) : List String → Option String
  | [] => none
  | n :: rest => if declared.contains n then firstUnknown declared rest else some n

mutual

/-- `json_to_val` from `src/lib.rs`: the tree decoder, driven by the type
descriptor. -/
def json_to_val : Ty → Json → Except DecodeErr Val
  | .bool, j =>
    match j with
    | .bool b => .ok (.bool b)
    | _ => .error (.typeMismatch "bool")
  | .u8, j => (decodeU 256 "u8" j).map .u8
  | .u16, j => (decodeU 65536 "u16" j).map .u16
  | .u32, j => (decodeU 4294967296 "u32" j).map .u32
  | .u64, j => (decodeU 18446744073709551616 "u64" j).map .u64
  | .s8, j => (decodeS (-128) 127 "s8" j).map .s8
  | .s16, j => (decodeS (-32768) 32767 "s16" j).map .s16
  | .s32, j => (decodeS (-2147483648) 2147483647 "s32" j).map .s32
  | .s64, j => (decodeS (-9223372036854775808) 9223372036854775807 "s64" j).map .s64
  | .float32, j =>
    match j with
    | .str "NaN" => .ok (.float32 .nan)
    | .str "Infinity" => .ok (.float32 .inf)
    | .str "-Infinity" => .ok (.float32 .neginf)
    | j2 => (decodeF "float32" j2).map .float32
  | .float64, j =>
    match j with
    | .str "NaN" => .ok (.float64 .nan)
    | .str "Infinity" => .ok (.float64 .inf)
    | .str "-Infinity" => .ok (.float64 .neginf)
    | j2 => (decodeF "float64" j2).map .float64
  | .char, j => decodeChar j
  | .string, j =>
    match j with
    | .str s => .ok (.string s)
    | _ => .error (.typeMismatch "string")
  | .list t, j =>
    match j with
    | .arr els => (treeSeq t els).map .list
    | _ => .error (.typeMismatch "list")
  | .record fts, j =>
    match j with
    | .obj kvs => (treeFields fts kvs).map .record
    | _ => .error (.typeMismatch "record")
  | .tuple ts, j =>
    match j with
    | .arr els =>
      if els.length = ts.length then (treeSlots ts els).map .tuple
      else .error (.arityMismatch ts.length)
    | _ => .error (.typeMismatch "tuple")
  | .variant cases, j =>
    match get_single_entry_json j with
    | .error e => .error e
    | .ok (k, jv) => treeCaseDecode cases k jv
  | .enum ns, j =>
    match j with
    | .str s => if ns.contains s then .ok (.enum s) else .error (.unknownCase s)
    | _ => .error (.typeMismatch "enum")
  | .union cs, j =>
    match get_single_entry_json j with
    | .error e => .error e
    | .ok (k, jv) =>
      match parseDec k with
      | none => .error (.malformedKey k)
      | some idx => treeUnionNth idx cs idx jv
  | .option t, j =>
    match j with
    | .null => .ok (.option none)
    | j2 => (json_to_val t j2).map (fun v => .option (some v))
  | .result okT errT, j =>
    match get_single_entry_json j with
    | .error e => .error e
    | .ok (k, jv) =>
      if k = "result" then
        match okT with
        | some t => (json_to_val t jv).map (fun v => .result true (some v))
        | none => .ok (.result true none)
      else if k = "error" then
        match errT with
        | some t => (json_to_val t jv).map (fun v => .result false (some v))
        | none => .ok (.result false none)
      else .error (.malformedKey k)
  | .flags ns, j =>
    match j with
    | .arr els =>
      match asStringsList els with
      | none => .error (.typeMismatch "flags")
      | some given =>
        match firstUnknown ns given with
        | some bad => .error (.unknownFlag bad)
        | none => .ok (.flags (ns.filter (fun d => given.contains d)))
    | _ => .error (.typeMismatch "flags")

/-- List elements, each decoded against the element type. -/
def treeSeq (t : Ty) : List Json → Except DecodeErr (List Val)
  | [] => .ok []
  | j :: js =>
    match json_to_val t j with
    | .error e => .error e
    | .ok v =>
      match treeSeq t js with
      | .error e => .error e
      | .ok vs => .ok (v :: vs)

/-- Record fields: each declared field looked up by name (`Map::remove`,
absent keys default to `null`), in declaration order. -/
def treeFields : List (String × Ty) → List (String × Json) → Except DecodeErr (List (String × Val))
  | [], _ => .ok []
  | (n, ft) :: rest, kvs =>
    match json_to_val ft ((jLookup n kvs).getD .null) with
    | .error e => .error e
    | .ok v =>
      match treeFields rest (jRemove n kvs) with
      | .error e => .error e
      | .ok tail => .ok ((n, v) :: tail)

/-- Tuple slots zipped with the array elements (lengths checked by the
caller). -/
def treeSlots : List Ty → List Json → Except DecodeErr (List Val)
  | [], _ => .ok []
  | _ :: _, [] => .ok []
  | t :: ts, j :: js =>
    match json_to_val t j with
    | .error e => .error e
    | .ok v =>
      match treeSlots ts js with
      | .error e => .error e
      | .ok vs => .ok (v :: vs)

/-- `variant.cases().find(|case| case.name == key)` followed by the payload
decode; a missing payload type ignores the accompanying value. -/
def treeCaseDecode : List (String × Option Ty) → String → Json → Except DecodeErr Val
  | [], k, _ => .error (.unknownCase k)
  | (n, pt) :: rest, k, jv =>
    if n = k then
      match pt with
      | none => .ok (.variant k none)
      | some t => (json_to_val t jv).map (fun v => .variant k (some v))
    else treeCaseDecode rest k jv

/-- `union.types().nth(idx)` followed by the payload decode. -/
def treeUnionNth (orig : Nat) : List Ty → Nat → Json → Except DecodeErr Val
  | [], _, _ => .error (.noSuchCase orig)
  | t :: _, 0, jv => (json_to_val t jv).map (.union orig ·)
  | _ :: ts, i + 1, jv => treeUnionNth orig ts i jv

end

/-! ## Streaming decoder: `deserialize_val` (serde visitor, schema-directed)

The streaming decoder is generic over a serde `Deserializer`; its observable
semantics are modelled against the `serde_json::Value` deserializer (the
JSON token source this repository works with). `deserialize_val` enters
through `deserialize_any`, which dispatches on the token kind; nested values
decoded through `DeserializeSeed` enter through the per-type `deserialize_*`
calls, which check the token kind first. -/

/-- `TypeExt::desc` from `src/type_ext.rs`. -/
def Ty.desc : Ty → String
  | .bool => "bool"
  | .s8 => "s8"
  | .u8 => "u8"
  | .s16 => "s16"
  | .u16 => "u16"
  | .s32 => "s32"
  | .u32 => "u32"
  | .s64 => "s64"
  | .u64 => "u64"
  | .float32 => "float32"
  | .float64 => "float64"
  | .char => "char"
  | .string => "string"
  | .list _ => "list"
  | .record _ => "record"
  | .tuple _ => "tuple"
  | .variant _ => "variant"
  | .enum _ => "enum"
  | .union _ => "union"
  | .option _ => "option"
  | .result _ _ => "result"
  | .flags _ => "flags"

/-- `field_types.remove(key)` in the streaming record decoder: take the
field named `k` out of the not-yet-seen fields, failing if it is unknown
or already consumed (a duplicate). -/
def pluckField (k : String) : List (String × Ty) → Option (Ty × List (String × Ty))
  | [] => none
  | (n, t) :: rest =>
    if n = k then some (t, rest)
    else (pluckField k rest).map (fun p => (p.1, (n, t) :: p.2))

theorem pluckField_ty_sizeOf (k : String) : ∀ (l : List (String × Ty)) (t : Ty)
    (l2 : List (String × Ty)), pluckField k l = some (t, l2) → sizeOf t < sizeOf l := by
  intro l
  induction l with
  | nil => intro t l2 h; simp [pluckField] at h
  | cons hd tl ih =>
    intro t l2 h
    obtain ⟨n, t2⟩ := hd
    rw [pluckField] at h
    split at h
    · cases h
      simp
      try omega
    · cases h2 : pluckField k tl with
      | none => rw [h2] at h; simp at h
      | some p =>
        rw [h2] at h
        obtain ⟨pt, pl⟩ := p
        simp at h
        obtain ⟨h3, _⟩ := h
        subst h3
        have := ih pt pl h2
        simp
        omega

theorem pluckField_rest_sizeOf (k : String) : ∀ (l : List (String × Ty)) (t : Ty)
    (l2 : List (String × Ty)), pluckField k l = some (t, l2) → sizeOf l2 < sizeOf l := by
  intro l
  induction l with
  | nil => intro t l2 h; simp [pluckField] at h
  | cons hd tl ih =>
    intro t l2 h
    obtain ⟨n, t2⟩ := hd
    rw [pluckField] at h
    split at h
    · cases h
      simp
      try omega
    · cases h2 : pluckField k tl with
      | none => rw [h2] at h; simp at h
      | some p =>
        rw [h2] at h
        obtain ⟨pt, pl⟩ := p
        simp at h
        obtain ⟨_, h4⟩ := h
        subst h4
        have := ih pt pl h2
        simp
        omega

/-- `Record::new_val`: reorder the collected `(name, value)` pairs into
declaration order (the source collects them in a `BTreeMap` keyed by the
declaration index); a missing field fails. -/
def orderByFields : List (String × Ty) → List (String × Val) → Except DecodeErr (List (String × Val))
  | [], _ => .ok []
  | (n, _) :: rest, acc =>
    match acc.lookup n with
    | none => .error .missingField
    | some v => (orderByFields rest acc).map (fun tail => (n, v) :: tail)

mutual

/-- `deserialize_val` entry: `serde_json`'s `deserialize_any` dispatches on
the token kind and feeds the `TypeWrapper` visitor (`Null` visits unit,
numbers visit by their internal variant, strings via `visit_string`,
arrays via `visit_seq`, objects via `visit_map`). -/
def streamAny : Ty → Json → Except DecodeErr Val
  | t, .null =>
    match t with
    | .option _ => .ok (.option none)
    | t2 => .error (.typeMismatch t2.desc)
  | t, .bool b => visitBool t b
  | t, .num (.int i) => if i < 0 then visitI64 t i else visitU64 t i.toNat
  | t, .num (.float q) => visitF64 t q
  | t, .str s => visitStr t s
  | t, .arr els => visitSeq t els
  | t, .obj kvs => visitMap t kvs
termination_by t j => sizeOf t + sizeOf j
decreasing_by all_goals simp_wf; all_goals omega

/-- `DeserializeSeed::deserialize` for `TypeWrapper`: dispatches on the
target type to the matching `deserialize_*` method of the `serde_json`
deserializer, which checks the token kind before visiting. `Result` targets
use `deserialize_enum`, and the visitor implements no `visit_enum`, so the
serde default makes every nested `Result` decode fail with an invalid-type
error. -/
def streamSeed : Ty → Json → Except DecodeErr Val
  | .bool, j =>
    match j with
    | .bool b => .ok (.bool b)
    | _ => .error (.typeMismatch "bool")
  | .u8, j => streamSeedNum .u8 j
  | .u16, j => streamSeedNum .u16 j
  | .u32, j => streamSeedNum .u32 j
  | .u64, j => streamSeedNum .u64 j
  | .s8, j => streamSeedNum .s8 j
  | .s16, j => streamSeedNum .s16 j
  | .s32, j => streamSeedNum .s32 j
  | .s64, j => streamSeedNum .s64 j
  | .float32, j => streamSeedNum .float32 j
  | .float64, j => streamSeedNum .float64 j
  | .char, j =>
    match j with
    | .str s => visitStr .char s
    | _ => .error (.typeMismatch "char")
  | .string, j =>
    match j with
    | .str s => .ok (.string s)
    | _ => .error (.typeMismatch "string")
  | .list t, j =>
    match j with
    | .arr els => visitSeq (.list t) els
    | _ => .error (.typeMismatch "list")
  | .record fts, j =>
    match j with
    | .obj kvs => visitMap (.record fts) kvs
    | _ => .error (.typeMismatch "record")
  | .tuple ts, j =>
    match j with
    | .arr els => visitSeq (.tuple ts) els
    | _ => .error (.typeMismatch "tuple")
  | .variant cases, j =>
    match j with
    | .obj kvs => visitMap (.variant cases) kvs
    | _ => .error (.typeMismatch "variant")
  | .enum ns, j =>
    match j with
    | .str s => visitStr (.enum ns) s
    | _ => .error (.typeMismatch "enum")
  | .union cs, j =>
    match j with
    | .obj kvs => visitMap (.union cs) kvs
    | _ => .error (.typeMismatch "union")
  | .option t, j =>
    match j with
    | .null => .ok (.option none)
    | j2 => (streamAny t j2).map (fun v => .option (some v))
  | .result _ _, _ => .error (.typeMismatch "enum")
  | .flags ns, j =>
    match j with
    | .arr els => visitSeq (.flags ns) els
    | _ => .error (.typeMismatch "flags")
termination_by t j => sizeOf t + sizeOf j
decreasing_by all_goals simp_wf; all_goals omega

/-- Number-token dispatch of the seed path: `serde_json` routes a `Number`
to `visit_u64`/`visit_i64`/`visit_f64` by its internal variant, whatever
numeric `deserialize_*` method was called. -/
def streamSeedNum : Ty → Json → Except DecodeErr Val
  | t, .num (.int i) => if i < 0 then visitI64 t i else visitU64 t i.toNat
  | t, .num (.float q) => visitF64 t q
  | t, _ => .error (.typeMismatch t.desc)

/-- `visit_bool`. -/
def visitBool : Ty → Bool → Except DecodeErr Val
  | .option t, b => (visitBool t b).map (fun v => .option (some v))
  | .bool, b => .ok (.bool b)
  | t, _ => .error (.typeMismatch t.desc)
termination_by t _ => sizeOf t
decreasing_by all_goals simp_wf; all_goals omega

/-- `visit_i64`: range-checked narrowing; `Float32`/`Float64` accept only
integers in the `i16`/`i32` range, widened via the intermediate signed
type. -/
def visitI64 : Ty → Int → Except DecodeErr Val
  | .option t, i => (visitI64 t i).map (fun v => .option (some v))
  | .u8, i => if 0 ≤ i ∧ i ≤ 255 then .ok (.u8 i.toNat) else .error (.outOfRange "u8")
  | .u16, i => if 0 ≤ i ∧ i ≤ 65535 then .ok (.u16 i.toNat) else .error (.outOfRange "u16")
  | .u32, i =>
    if 0 ≤ i ∧ i ≤ 4294967295 then .ok (.u32 i.toNat) else .error (.outOfRange "u32")
  | .u64, i =>
    if 0 ≤ i ∧ i ≤ 18446744073709551615 then .ok (.u64 i.toNat)
    else .error (.outOfRange "u64")
  | .s8, i => if -128 ≤ i ∧ i ≤ 127 then .ok (.s8 i) else .error (.outOfRange "s8")
  | .s16, i => if -32768 ≤ i ∧ i ≤ 32767 then .ok (.s16 i) else .error (.outOfRange "s16")
  | .s32, i =>
    if -2147483648 ≤ i ∧ i ≤ 2147483647 then .ok (.s32 i) else .error (.outOfRange "s32")
  | .s64, i => .ok (.s64 i)
  | .float32, i =>
    if -32768 ≤ i ∧ i ≤ 32767 then .ok (.float32 (.finite i))
    else .error (.outOfRange "float32")
  | .float64, i =>
    if -2147483648 ≤ i ∧ i ≤ 2147483647 then .ok (.float64 (.finite i))
    else .error (.outOfRange "float64")
  | t, _ => .error (.typeMismatch t.desc)
termination_by t _ => sizeOf t
decreasing_by all_goals simp_wf; all_goals omega

/-- `visit_u64`: same as `visit_i64` for a non-negative token. -/
def visitU64 : Ty → Nat → Except DecodeErr Val
  | .option t, n => (visitU64 t n).map (fun v => .option (some v))
  | .u8, n => if n ≤ 255 then .ok (.u8 n) else .error (.outOfRange "u8")
  | .u16, n => if n ≤ 65535 then .ok (.u16 n) else .error (.outOfRange "u16")
  | .u32, n => if n ≤ 4294967295 then .ok (.u32 n) else .error (.outOfRange "u32")
  | .u64, n => .ok (.u64 n)
  | .s8, n => if n ≤ 127 then .ok (.s8 n) else .error (.outOfRange "s8")
  | .s16, n => if n ≤ 32767 then .ok (.s16 n) else .error (.outOfRange "s16")
  | .s32, n => if n ≤ 2147483647 then .ok (.s32 n) else .error (.outOfRange "s32")
  | .s64, n => if n ≤ 9223372036854775807 then .ok (.s64 n) else .error (.outOfRange "s64")
  | .float32, n =>
    if n ≤ 32767 then .ok (.float32 (.finite n)) else .error (.outOfRange "float32")
  | .float64, n =>
    if n ≤ 2147483647 then .ok (.float64 (.finite n)) else .error (.outOfRange "float64")
  | t, _ => .error (.typeMismatch t.desc)
termination_by t _ => sizeOf t
decreasing_by all_goals simp_wf; all_goals omega

/-- `visit_f64`: only `Float64` accepts a float token (`visit_f32` is never
called by the JSON deserializer, so a float token against `Float32` is an
invalid-type error). NaN normalization is invisible here because JSON
numbers are always finite. -/
def visitF64 : Ty → Rat → Except DecodeErr Val
  | .option t, q => (visitF64 t q).map (fun v => .option (some v))
  | .float64, q => .ok (.float64 (.finite q))
  | t, _ => .error (.typeMismatch t.desc)
termination_by t _ => sizeOf t
decreasing_by all_goals simp_wf; all_goals omega

/-- `visit_str`/`visit_string`: polymorphic on the target type; a byte list
(`List(U8)`) accepts a standard-base64 string. -/
def visitStr : Ty → String → Except DecodeErr Val
  | .option t, s => (visitStr t s).map (fun v => .option (some v))
  | .char, s =>
    match s.toList with
    | [c] => .ok (.char c)
    | _ => .error .notOneChar
  | .string, s => .ok (.string s)
  | .enum ns, s => if ns.contains s then .ok (.enum s) else .error (.unknownCase s)
  | .list .u8, s =>
    match base64Decode s with
    | some bs => .ok (.list (bs.map Val.u8))
    | none => .error .badBase64
  | t, _ => .error (.typeMismatch t.desc)
termination_by t _ => sizeOf t
decreasing_by all_goals simp_wf; all_goals omega

/-- `visit_seq`: lists (open length), tuples (exact length, trailing extras
are an error), flags (string elements, membership-checked). -/
def visitSeq : Ty → List Json → Except DecodeErr Val
  | .option t, els => (visitSeq t els).map (fun v => .option (some v))
  | .list t, els => (streamSeqElems t els).map .list
  | .tuple ts, els => (streamTupleElems ts.length ts 0 els).map .tuple
  | .flags ns, els =>
    match asStringsList els with
    | none => .error (.typeMismatch "string")
    | some given =>
      match firstUnknown ns given with
      | some bad => .error (.unknownFlag bad)
      | none => .ok (.flags (ns.filter (fun d => given.contains d)))
  | t, _ => .error (.typeMismatch t.desc)
termination_by t els => sizeOf t + sizeOf els
decreasing_by all_goals simp_wf; all_goals omega

/-- `visit_map`: records (unknown or duplicate keys rejected, all fields
required), and the single-key sum conventions for variant/union/result with
trailing-key detection. -/
def visitMap : Ty → List (String × Json) → Except DecodeErr Val
  | .option t, kvs => (visitMap t kvs).map (fun v => .option (some v))
  | .record fts, kvs => (streamRecordGo fts fts kvs []).map .record
  | .variant cases, kvs =>
    match kvs with
    | [] => .error (.emptyMap "variant")
    | (k, jv) :: rest =>
      match streamCaseDecode cases k jv with
      | .error e => .error e
      | .ok pl => if rest.isEmpty then .ok (.variant k pl) else .error (.tooMany 1)
  | .union cs, kvs =>
    match kvs with
    | [] => .error (.emptyMap "union")
    | (k, jv) :: rest =>
      match parseDec k with
      | none => .error (.malformedKey k)
      | some idx =>
        match streamUnionNth idx cs idx jv with
        | .error e => .error e
        | .ok v => if rest.isEmpty then .ok v else .error (.tooMany 1)
  | .result okT errT, kvs =>
    match kvs with
    | [] => .error (.emptyMap "result")
    | (k, jv) :: rest =>
      if k = "result" then
        match streamOptionalValue okT jv with
        | .error e => .error e
        | .ok pl => if rest.isEmpty then .ok (.result true pl) else .error (.tooMany 1)
      else if k = "error" then
        match streamOptionalValue errT jv with
        | .error e => .error e
        | .ok pl => if rest.isEmpty then .ok (.result false pl) else .error (.tooMany 1)
      else .error (.malformedKey k)
  | t, _ => .error (.typeMismatch t.desc)
termination_by t kvs => sizeOf t + sizeOf kvs
decreasing_by all_goals simp_wf; all_goals omega

/-- `next_element_seed` loop for lists. -/
def streamSeqElems (t : Ty) : List Json → Except DecodeErr (List Val)
  | [] => .ok []
  | j :: js =>
    match streamSeed t j with
    | .error e => .error e
    | .ok v =>
      match streamSeqElems t js with
      | .error e => .error e
      | .ok vs => .ok (v :: vs)
termination_by els => sizeOf t + sizeOf els
decreasing_by all_goals simp_wf; all_goals omega

/-- `next_element_seed` loop for tuples: a missing element is an
invalid-length error at the reached index, a trailing element a
too-many-elements error naming the arity. -/
def streamTupleElems (total : Nat) : List Ty → Nat → List Json → Except DecodeErr (List Val)
  | [], _, [] => .ok []
  | [], _, _ :: _ => .error (.tooMany total)
  | _ :: _, idx, [] => .error (.invalidLength idx)
  | t :: ts, idx, j :: js =>
    match streamSeed t j with
    | .error e => .error e
    | .ok v =>
      match streamTupleElems total ts (idx + 1) js with
      | .error e => .error e
      | .ok vs => .ok (v :: vs)
termination_by ts _ els => sizeOf ts + sizeOf els
decreasing_by all_goals simp_wf; all_goals omega

/-- `next_optional_value` from `src/serde/de.rs`: a declared payload type
decodes the value with the seed path; with no payload type the value is
consumed as unit (`next_value::<()>`), which only accepts `null`. -/
def streamOptionalValue : Option Ty → Json → Except DecodeErr (Option Val)
  | some t, jv => (streamSeed t jv).map some
  | none, jv =>
    match jv with
    | .null => .ok none
    | _ => .error (.typeMismatch "unit")
termination_by pt jv => sizeOf pt + sizeOf jv
decreasing_by all_goals simp_wf; all_goals omega

/-- Variant case lookup plus payload decode via `next_optional_value`. -/
def streamCaseDecode : List (String × Option Ty) → String → Json → Except DecodeErr (Option Val)
  | [], k, _ => .error (.unknownCase k)
  | (n, pt) :: rest, k, jv =>
    if n = k then streamOptionalValue pt jv
    else streamCaseDecode rest k jv
termination_by cases _ jv => sizeOf cases + sizeOf jv
decreasing_by all_goals simp_wf; all_goals omega

/-- Union case number lookup plus payload decode. -/
def streamUnionNth (orig : Nat) : List Ty → Nat → Json → Except DecodeErr Val
  | [], _, _ => .error (.noSuchCase orig)
  | t :: _, 0, jv => (streamSeed t jv).map (.union orig ·)
  | _ :: ts, i + 1, jv => streamUnionNth orig ts i jv
termination_by cs _ jv => sizeOf cs + sizeOf jv
decreasing_by all_goals simp_wf; all_goals omega

/-- `visit_map` loop for records: consume each key out of the not-yet-seen
fields (unknown or duplicate keys fail), decode its value with the seed
path, and finally rebuild the record in declaration order (`new_val`),
failing if a declared field was never seen. -/
def streamRecordGo (fts0 : List (String × Ty)) :
    List (String × Ty) → List (String × Json) → List (String × Val) →
    Except DecodeErr (List (String × Val))
  | remaining, [], acc =>
    if remaining.isEmpty then orderByFields fts0 acc else .error .missingField
  | remaining, (k, jv) :: rest, acc =>
    match _h : pluckField k remaining with
    | none => .error (.unknownField k)
    | some (ft, remaining2) =>
      match streamSeed ft jv with
      | .error e => .error e
      | .ok v => streamRecordGo fts0 remaining2 rest (acc ++ [(k, v)])
termination_by remaining kvs _ => sizeOf remaining + sizeOf kvs
decreasing_by
  all_goals simp_wf
  all_goals
    first
    | omega
    | (have hsz1 := pluckField_ty_sizeOf _ _ _ _ _h
       omega)
    | (have hsz2 := pluckField_rest_sizeOf _ _ _ _ _h
       omega)

end

/-! ## Default value synthesizer: `default_val` from `src/type_ext.rs` -/

mutual

/-- `TypeExt::default_val`. The `expect` panics on an empty
variant/enum/union case list are modelled as `none`. -/
def default_val : Ty → Option Val
  | .bool => some (.bool false)
  | .u8 => some (.u8 0)
  | .u16 => some (.u16 0)
  | .u32 => some (.u32 0)
  | .u64 => some (.u64 0)
  | .s8 => some (.s8 0)
  | .s16 => some (.s16 0)
  | .s32 => some (.s32 0)
  | .s64 => some (.s64 0)
  | .float32 => some (.float32 (.finite 0))
  | .float64 => some (.float64 (.finite 0))
  | .char => some (.char (Char.ofNat 0))
  | .string => some (.string "")
  | .list _ => some (.list [])
  | .record fts => (defaultFields fts).map .record
  | .tuple ts => (defaultSlots ts).map .tuple
  | .variant cases =>
    match cases with
    | [] => none
    | (n, some t) :: _ => (default_val t).map (fun v => .variant n (some v))
    | (n, none) :: _ => some (.variant n none)
  | .enum ns =>
    match ns with
    | [] => none
    | n :: _ => some (.enum n)
  | .union cs =>
    match cs with
    | [] => none
    | t :: _ => (default_val t).map (.union 0 ·)
  | .option _ => some (.option none)
  | .result okT _ =>
    match okT with
    | some t => (default_val t).map (fun v => .result true (some v))
    | none => some (.result true none)
  | .flags _ => some (.flags [])

def defaultFields : List (String × Ty) → Option (List (String × Val))
  | [] => some []
  | (n, t) :: rest =>
    match default_val t with
    | none => none
    | some v => (defaultFields rest).map (fun tail => (n, v) :: tail)

def defaultSlots : List Ty → Option (List Val)
  | [] => some []
  | t :: rest =>
    match default_val t with
    | none => none
    | some v => (defaultSlots rest).map (fun tail => v :: tail)

end

/-! ## Spec-side definitions -/

mutual

/-- Modelled from the spec: the default-value rules of section 4.5, written
from the spec's words ("numeric types → zero; bool → false; char → NUL;
string/list/flags → empty; record/tuple → recursively default every
field/slot in order; enum/variant/union → recursively default using the
first declared case; option → none; result → Ok branch populated with the
default of the ok type if declared, otherwise none"), for comparison with
`default_val`. `none` on a caseless variant/enum/union, where the spec's
first-declared-case rule is vacuous. -/
def defaultSpec : Ty → Option Val
  | .bool => some (.bool false)
  | .u8 => some (.u8 0)
  | .u16 => some (.u16 0)
  | .u32 => some (.u32 0)
  | .u64 => some (.u64 0)
  | .s8 => some (.s8 0)
  | .s16 => some (.s16 0)
  | .s32 => some (.s32 0)
  | .s64 => some (.s64 0)
  | .float32 => some (.float32 (.finite 0))
  | .float64 => some (.float64 (.finite 0))
  | .char => some (.char (Char.ofNat 0))
  | .string => some (.string "")
  | .list _ => some (.list [])
  | .record fts => (defaultSpecFields fts).map .record
  | .tuple ts => (defaultSpecSlots ts).map .tuple
  | .variant cases =>
    match cases with
    | [] => none
    | (n, none) :: _ => some (.variant n none)
    | (n, some t) :: _ => (defaultSpec t).map (fun v => .variant n (some v))
  | .enum ns => (ns.head?).map .enum
  | .union cs =>
    match cs with
    | [] => none
    | t :: _ => (defaultSpec t).map (.union 0 ·)
  | .option _ => some (.option none)
  | .result okT _ =>
    match okT with
    | some t => (defaultSpec t).map (fun v => .result true (some v))
    | none => some (.result true none)
  | .flags _ => some (.flags [])

def defaultSpecFields : List (String × Ty) → Option (List (String × Val))
  | [] => some []
  | (n, t) :: rest =>
    match defaultSpec t with
    | none => none
    | some v => (defaultSpecFields rest).map (fun tail => (n, v) :: tail)

def defaultSpecSlots : List Ty → Option (List Val)
  | [] => some []
  | t :: rest =>
    match defaultSpec t with
    | none => none
    | some v => (defaultSpecSlots rest).map (fun tail => v :: tail)

end

/-- Whether a descriptor is the `Result` type (for the wire convention's
flattening rule). -/
def Ty.isResult : Ty → Bool
  | .result _ _ => true
  | _ => false

/-- Modelled from the spec: the wire convention of section 6 for re-exposing
a call's results as one response. The server binary's `call` handler and the
OpenAPI generator only stub this shaping (`todo!()` arms and placeholder
schemas), so the convention is modelled from the spec's words: zero results
→ an empty object; exactly one result → `{"result": <encoded>}` unless the
result's type is itself `Result`, whose encoding is returned un-wrapped;
two or more results → `{"results": [...]}` in declaration order. -/
def callResponse : List (Ty × Val) → Json
  | [] => .obj []
  | [(t, v)] => if t.isResult then val_to_json v else .obj [("result", val_to_json v)]
  | results => .obj [("results", .arr (results.map (fun r => val_to_json r.2)))]

/-! ## Typing and well-formedness -/

def Ty.isOption : Ty → Bool
  | .option _ => true
  | _ => false

/-- `HasTy v t`: `v` was validly constructed against descriptor `t` — the
invariant the `new_val` constructors enforce (numeric ranges, field names
and arities matching, variant/union cases declared, flags a
declaration-ordered subset). -/
inductive HasTy : Val → Ty → Prop
  | bool (b : Bool) : HasTy (.bool b) .bool
  | u8 (n : Nat) : n < 256 → HasTy (.u8 n) .u8
  | u16 (n : Nat) : n < 65536 → HasTy (.u16 n) .u16
  | u32 (n : Nat) : n < 4294967296 → HasTy (.u32 n) .u32
  | u64 (n : Nat) : n < 18446744073709551616 → HasTy (.u64 n) .u64
  | s8 (i : Int) : -128 ≤ i → i ≤ 127 → HasTy (.s8 i) .s8
  | s16 (i : Int) : -32768 ≤ i → i ≤ 32767 → HasTy (.s16 i) .s16
  | s32 (i : Int) : -2147483648 ≤ i → i ≤ 2147483647 → HasTy (.s32 i) .s32
  | s64 (i : Int) : -9223372036854775808 ≤ i → i ≤ 9223372036854775807 →
      HasTy (.s64 i) .s64
  | float32 (f : Fl) : HasTy (.float32 f) .float32
  | float64 (f : Fl) : HasTy (.float64 f) .float64
  | char (c : Char) : HasTy (.char c) .char
  | string (s : String) : HasTy (.string s) .string
  | list {vs t} : (∀ v ∈ vs, HasTy v t) → HasTy (.list vs) (.list t)
  | record {fvs fts} : fvs.map Prod.fst = fts.map Prod.fst →
      (∀ p ∈ List.zip fvs fts, HasTy p.1.2 p.2.2) → HasTy (.record fvs) (.record fts)
  | tuple {vs ts} : vs.length = ts.length →
      (∀ p ∈ List.zip vs ts, HasTy p.1 p.2) → HasTy (.tuple vs) (.tuple ts)
  | variantSome {cases k t v} : caseLookup k cases = some (some t) → HasTy v t →
      HasTy (.variant k (some v)) (.variant cases)
  | variantNone {cases k} : caseLookup k cases = some none →
      HasTy (.variant k none) (.variant cases)
  | enum {ns n} : n ∈ ns → HasTy (.enum n) (.enum ns)
  | union {cs i t v} : cs.get? i = some t → HasTy v t → HasTy (.union i v) (.union cs)
  | optNone {t} : HasTy (.option none) (.option t)
  | optSome {t v} : HasTy v t → HasTy (.option (some v)) (.option t)
  | resultOkSome {t errT v} : HasTy v t → HasTy (.result true (some v)) (.result (some t) errT)
  | resultOkNone {errT} : HasTy (.result true none) (.result none errT)
  | resultErrSome {okT t v} : HasTy v t →
      HasTy (.result false (some v)) (.result okT (some t))
  | resultErrNone {okT} : HasTy (.result false none) (.result okT none)
  | flags {ns declared} : ns.Sublist declared → HasTy (.flags ns) (.flags declared)

/-- Well-formed descriptors as produced by the schema provider: record
field names, variant case names, enum names and flag names are unique,
and variant/enum/union case lists are non-empty. -/
inductive Wf : Ty → Prop
  | bool : Wf .bool
  | u8 : Wf .u8
  | u16 : Wf .u16
  | u32 : Wf .u32
  | u64 : Wf .u64
  | s8 : Wf .s8
  | s16 : Wf .s16
  | s32 : Wf .s32
  | s64 : Wf .s64
  | float32 : Wf .float32
  | float64 : Wf .float64
  | char : Wf .char
  | string : Wf .string
  | list {t} : Wf t → Wf (.list t)
  | record {fts} : (fts.map Prod.fst).Nodup → (∀ p ∈ fts, Wf p.2) → Wf (.record fts)
  | tuple {ts} : (∀ t ∈ ts, Wf t) → Wf (.tuple ts)
  | variant {cases} : cases ≠ [] → (cases.map Prod.fst).Nodup →
      (∀ p ∈ cases, ∀ t, p.2 = some t → Wf t) → Wf (.variant cases)
  | enum {ns} : ns ≠ [] → ns.Nodup → Wf (.enum ns)
  | union {cs} : cs ≠ [] → (∀ t ∈ cs, Wf t) → Wf (.union cs)
  | option {t} : Wf t → Wf (.option t)
  | result {okT errT} : (∀ t, okT = some t → Wf t) → (∀ t, errT = some t → Wf t) →
      Wf (.result okT errT)
  | flags {ns} : ns.Nodup → Wf (.flags ns)

/-- `false` on infinite floats: the values whose `val_to_json` encoding has
the swapped `Infinity` spelling. -/
def finOk : Fl → Bool
  | .inf => false
  | .neginf => false
  | _ => true

mutual

/-- `clean v`: `v` contains no infinite float and no `some(none)` option
payload — the two value shapes whose tree encoding does not decode back to
the same value. -/
def clean : Val → Bool
  | .float32 f => finOk f
  | .float64 f => finOk f
  | .list vs => cleanList vs
  | .record fvs => cleanFields fvs
  | .tuple vs => cleanList vs
  | .variant _ pl => cleanOpt pl
  | .union _ v => clean v
  | .option (some (.option none)) => false
  | .option (some v) => clean v
  | .option none => true
  | .result _ pl => cleanOpt pl
  | _ => true

def cleanOpt : Option Val → Bool
  | none => true
  | some v => clean v

def cleanList : List Val → Bool
  | [] => true
  | v :: vs => clean v && cleanList vs

def cleanFields : List (String × Val) → Bool
  | [] => true
  | (_, v) :: fvs => clean v && cleanFields fvs

end

/-! ## Supporting lemmas -/

theorem contains_true {l : List String} {a : String} (h : a ∈ l) : l.contains a = true := by
  simpa [List.elem_iff] using h

theorem contains_false {l : List String} {a : String} (h : a ∉ l) : l.contains a = false := by
  simp only [List.contains, Bool.eq_false_iff, ne_eq, List.elem_iff]
  exact h

theorem caseLookup_mem {k : String} : ∀ {cases : List (String × Option Ty)} {pt : Option Ty},
    caseLookup k cases = some pt → (k, pt) ∈ cases := by
  intro cases
  induction cases with
  | nil => intro pt h; simp [caseLookup] at h
  | cons hd tl ih =>
    intro pt h
    obtain ⟨n, pt2⟩ := hd
    rw [caseLookup] at h
    split at h
    · rename_i heq
      cases h
      subst heq
      exact List.mem_cons_self _ _
    · exact List.mem_cons_of_mem _ (ih h)

/-- `treeCaseDecode` agrees with the find-then-decode description. -/
theorem treeCaseDecode_eq (k : String) (jv : Json) :
    ∀ cases : List (String × Option Ty),
    treeCaseDecode cases k jv =
      match caseLookup k cases with
      | none => .error (.unknownCase k)
      | some none => .ok (.variant k none)
      | some (some t) => (json_to_val t jv).map (fun v => .variant k (some v)) := by
  intro cases
  induction cases with
  | nil => simp [treeCaseDecode, caseLookup]
  | cons hd tl ih =>
    obtain ⟨n, pt⟩ := hd
    rw [treeCaseDecode.eq_def]
    dsimp only
    rw [caseLookup]
    split
    · rename_i heq
      subst heq
      cases pt <;> simp
    · exact ih

/-- `treeUnionNth` agrees with the nth-then-decode description. -/
theorem treeUnionNth_eq (orig : Nat) (jv : Json) :
    ∀ (cs : List Ty) (i : Nat),
    treeUnionNth orig cs i jv =
      match cs.get? i with
      | none => .error (.noSuchCase orig)
      | some t => (json_to_val t jv).map (.union orig ·) := by
  intro cs
  induction cs with
  | nil => intro i; simp [treeUnionNth]
  | cons t ts ih =>
    intro i
    cases i with
    | zero => simp [treeUnionNth]
    | succ i2 => rw [treeUnionNth]; simpa using ih i2

/-- `streamCaseDecode` agrees with the find-then-decode description. -/
theorem streamCaseDecode_eq (k : String) (jv : Json) :
    ∀ cases : List (String × Option Ty),
    streamCaseDecode cases k jv =
      match caseLookup k cases with
      | none => .error (.unknownCase k)
      | some pt => streamOptionalValue pt jv := by
  intro cases
  induction cases with
  | nil => simp [streamCaseDecode, caseLookup]
  | cons hd tl ih =>
    obtain ⟨n, pt⟩ := hd
    rw [streamCaseDecode.eq_def]
    dsimp only
    rw [caseLookup]
    split
    · rename_i heq
      subst heq
      simp
    · exact ih

/-- `streamUnionNth` agrees with the nth-then-decode description. -/
theorem streamUnionNth_eq (orig : Nat) (jv : Json) :
    ∀ (cs : List Ty) (i : Nat),
    streamUnionNth orig cs i jv =
      match cs.get? i with
      | none => .error (.noSuchCase orig)
      | some t => (streamSeed t jv).map (.union orig ·) := by
  intro cs
  induction cs with
  | nil => intro i; simp [streamUnionNth]
  | cons t ts ih =>
    intro i
    cases i with
    | zero => simp [streamUnionNth]
    | succ i2 => rw [streamUnionNth]; simpa using ih i2

theorem asStringsList_map_str : ∀ ns : List String, asStringsList (ns.map .str) = some ns := by
  intro ns
  induction ns with
  | nil => rfl
  | cons n tl ih => simp [asStringsList, ih]

theorem firstUnknown_none {declared : List String} :
    ∀ {given : List String}, (∀ n ∈ given, n ∈ declared) →
    firstUnknown declared given = none := by
  intro given
  induction given with
  | nil => intro _; rfl
  | cons n tl ih =>
    intro h
    rw [firstUnknown, if_pos (contains_true (h n (by simp)))]
    exact ih fun m hm => h m (by simp [hm])

theorem filter_mem_sublist : ∀ {vns declared : List String}, vns.Sublist declared →
    declared.Nodup → declared.filter (fun d => decide (d ∈ vns)) = vns := by
  intro vns declared h
  induction h with
  | slnil => intro _; rfl
  | cons a h2 ih =>
    rename_i l1 l2
    intro hnd
    obtain ⟨ha, hnd2⟩ := List.nodup_cons.mp hnd
    have hna : a ∉ l1 := fun hx => ha (h2.subset hx)
    rw [List.filter_cons_of_neg (by simpa using hna)]
    exact ih hnd2
  | cons₂ a h2 ih =>
    rename_i l1 l2
    intro hnd
    obtain ⟨ha, hnd2⟩ := List.nodup_cons.mp hnd
    rw [List.filter_cons_of_pos (by simp)]
    congr 1
    rw [List.filter_congr (fun d hd => ?congrhyp)]
    · exact ih hnd2
    case congrhyp =>
      have hda : d ≠ a := fun hx => ha (hx ▸ hd)
      simp [hda]

theorem cleanList_mem : ∀ {vs : List Val}, cleanList vs = true → ∀ v ∈ vs, clean v = true := by
  intro vs
  induction vs with
  | nil => intro _ v hv; simp at hv
  | cons v2 tl ih =>
    intro h v hv
    rw [cleanList] at h
    obtain ⟨h1, h2⟩ := Bool.and_eq_true_iff.mp h
    rcases List.mem_cons.mp hv with hv2 | hv2
    · exact hv2 ▸ h1
    · exact ih h2 v hv2

theorem cleanFields_mem : ∀ {fvs : List (String × Val)}, cleanFields fvs = true →
    ∀ p ∈ fvs, clean p.2 = true := by
  intro fvs
  induction fvs with
  | nil => intro _ p hp; simp at hp
  | cons fv tl ih =>
    intro h p hp
    obtain ⟨n, v⟩ := fv
    rw [cleanFields] at h
    obtain ⟨h1, h2⟩ := Bool.and_eq_true_iff.mp h
    rcases List.mem_cons.mp hp with hp2 | hp2
    · exact hp2 ▸ h1
    · exact ih h2 p hp2

theorem valsToJson_length : ∀ vs : List Val, (valsToJson vs).length = vs.length := by
  intro vs
  induction vs with
  | nil => rfl
  | cons v tl ih => rw [valsToJson]; simp [ih]

/-- Recognizer for type-mismatch failures. -/
def isTypeMismatch : Except DecodeErr Val → Bool
  | .error (.typeMismatch _) => true
  | _ => false

/-- Decoding JSON `null` against any non-`Option` descriptor is a type
mismatch (this is what makes a missing non-Option record field fail). -/
theorem json_to_val_null_not_option (t : Ty) (h : t.isOption = false) :
    isTypeMismatch (json_to_val t .null) = true := by
  cases t
  case option t2 => simp [Ty.isOption] at h
  all_goals simp [isTypeMismatch, json_to_val, decodeU, decodeS, decodeF, decodeChar,
    get_single_entry_json, Except.map]

/-- Decoding JSON `null` against an `Option` descriptor yields `none`. -/
theorem json_to_val_option_null (t : Ty) :
    json_to_val (.option t) .null = .ok (.option none) := by
  simp [json_to_val]

/-- A successful decode of `null` forces an `Option` target and a `none`
value. -/
theorem json_to_val_null_ok {t : Ty} {v : Val} (h : json_to_val t .null = .ok v) :
    ∃ t2, t = .option t2 ∧ v = .option none := by
  cases t
  case option t2 =>
    refine ⟨t2, rfl, ?veq⟩
    rw [json_to_val_option_null] at h
    cases h
    rfl
  all_goals simp [json_to_val, decodeU, decodeS, decodeF, decodeChar,
    get_single_entry_json, Except.map] at h

theorem clean_option_some (v : Val) (h : v ≠ .option none) :
    clean (.option (some v)) = clean v := by
  cases v
  case option o =>
    cases o
    case none => exact absurd rfl h
    case some v2 => rfl
  all_goals rfl

theorem treeSeq_roundtrip (t : Ty) : ∀ vs : List Val,
    (∀ v ∈ vs, json_to_val t (val_to_json v) = .ok v) →
    treeSeq t (valsToJson vs) = .ok vs := by
  intro vs
  induction vs with
  | nil => intro _; simp [valsToJson, treeSeq]
  | cons v tl ih =>
    intro h
    rw [valsToJson, treeSeq, h v (by simp), ih fun v2 hv2 => h v2 (by simp [hv2])]

theorem treeSlots_roundtrip : ∀ (vs : List Val) (ts : List Ty), vs.length = ts.length →
    (∀ p ∈ List.zip vs ts, json_to_val p.2 (val_to_json p.1) = .ok p.1) →
    treeSlots ts (valsToJson vs) = .ok vs := by
  intro vs
  induction vs with
  | nil =>
    intro ts hlen _
    cases ts with
    | nil => simp [valsToJson, treeSlots]
    | cons a b => simp at hlen
  | cons v tl ih =>
    intro ts hlen h
    cases ts with
    | nil => simp at hlen
    | cons t ts2 =>
      simp only [List.length_cons, Nat.succ.injEq] at hlen
      rw [valsToJson, treeSlots, h (v, t) (by simp),
        ih ts2 hlen fun p hp => h p (by simp [hp])]

theorem treeFields_roundtrip : ∀ (fvs : List (String × Val)) (fts : List (String × Ty)),
    fvs.map Prod.fst = fts.map Prod.fst →
    (∀ p ∈ List.zip fvs fts, json_to_val p.2.2 (val_to_json p.1.2) = .ok p.1.2) →
    treeFields fts (fieldsToJson fvs) = .ok fvs := by
  intro fvs
  induction fvs with
  | nil =>
    intro fts hn _
    have : fts = [] := by
      cases fts with
      | nil => rfl
      | cons a b => simp at hn
    subst this
    simp [treeFields]
  | cons fv tl ih =>
    intro fts hn h
    obtain ⟨n, v⟩ := fv
    cases fts with
    | nil => simp at hn
    | cons ft fts2 =>
      obtain ⟨n2, t⟩ := ft
      simp only [List.map_cons, List.cons.injEq] at hn
      obtain ⟨hn1, hn2⟩ := hn
      subst hn1
      have hdecv : json_to_val t (val_to_json v) = .ok v := h ((n, v), (n, t)) (by simp)
      have hrec := ih fts2 hn2 fun p hp => h p (by simp [hp])
      rw [fieldsToJson, treeFields]
      simp [jLookup, jRemove, hdecv, hrec]

/-- Tree round trip on clean values: decoding the encoding of any validly
constructed value that contains no infinite float and no `some(none)`
option payload yields the value back. -/
theorem tree_roundtrip : ∀ {v : Val} {t : Ty}, HasTy v t → Wf t → clean v = true →
    json_to_val t (val_to_json v) = .ok v := by
  intro v t hty
  induction hty with
  | bool b => intro _ _; simp [val_to_json, json_to_val]
  | u8 n h =>
    intro _ _
    rw [val_to_json, json_to_val, decodeU]
    rw [if_pos (show (0 : Int) ≤ (n : Int) ∧ (n : Int) < ((256 : Nat) : Int) by omega)]
    simp [Except.map]
  | u16 n h =>
    intro _ _
    rw [val_to_json, json_to_val, decodeU]
    rw [if_pos (show (0 : Int) ≤ (n : Int) ∧ (n : Int) < ((65536 : Nat) : Int) by omega)]
    simp [Except.map]
  | u32 n h =>
    intro _ _
    rw [val_to_json, json_to_val, decodeU]
    rw [if_pos (show (0 : Int) ≤ (n : Int) ∧ (n : Int) < ((4294967296 : Nat) : Int) by omega)]
    simp [Except.map]
  | u64 n h =>
    intro _ _
    rw [val_to_json, json_to_val, decodeU]
    rw [if_pos (show (0 : Int) ≤ (n : Int) ∧ (n : Int) < ((18446744073709551616 : Nat) : Int) by omega)]
    simp [Except.map]
  | s8 i h1 h2 =>
    intro _ _
    rw [val_to_json, json_to_val, decodeS]
    rw [if_pos (⟨h1, h2⟩ : (-128 : Int) ≤ i ∧ i ≤ 127)]
    simp [Except.map]
  | s16 i h1 h2 =>
    intro _ _
    rw [val_to_json, json_to_val, decodeS]
    rw [if_pos (⟨h1, h2⟩ : (-32768 : Int) ≤ i ∧ i ≤ 32767)]
    simp [Except.map]
  | s32 i h1 h2 =>
    intro _ _
    rw [val_to_json, json_to_val, decodeS]
    rw [if_pos (⟨h1, h2⟩ : (-2147483648 : Int) ≤ i ∧ i ≤ 2147483647)]
    simp [Except.map]
  | s64 i h1 h2 =>
    intro _ _
    rw [val_to_json, json_to_val, decodeS]
    rw [if_pos (⟨h1, h2⟩ : (-9223372036854775808 : Int) ≤ i ∧ i ≤ 9223372036854775807)]
    simp [Except.map]
  | float32 f =>
    intro _ hcl
    cases f with
    | nan => simp [val_to_json, floatToJson, json_to_val]
    | inf => simp [clean, finOk] at hcl
    | neginf => simp [clean, finOk] at hcl
    | finite q => simp [val_to_json, floatToJson, json_to_val, decodeF, Except.map]
  | float64 f =>
    intro _ hcl
    cases f with
    | nan => simp [val_to_json, floatToJson, json_to_val]
    | inf => simp [clean, finOk] at hcl
    | neginf => simp [clean, finOk] at hcl
    | finite q => simp [val_to_json, floatToJson, json_to_val, decodeF, Except.map]
  | char c => intro _ _; simp [val_to_json, json_to_val, decodeChar]
  | string s => intro _ _; simp [val_to_json, json_to_val]
  | list hall ih =>
    intro hwf hcl
    rename_i vs t2
    cases hwf with
    | list hwft =>
      rw [clean] at hcl
      rw [val_to_json, json_to_val,
        treeSeq_roundtrip t2 vs fun v2 hv2 => ih v2 hv2 hwft (cleanList_mem hcl v2 hv2)]
      rfl
  | record hnames hall ih =>
    intro hwf hcl
    rename_i fvs fts
    cases hwf with
    | record hnd hwfall =>
      rw [clean] at hcl
      rw [val_to_json, json_to_val,
        treeFields_roundtrip fvs fts hnames fun p hp => by
          have hmem := List.of_mem_zip hp
          exact ih p hp (hwfall p.2 hmem.2) (cleanFields_mem hcl p.1 hmem.1)]
      rfl
  | tuple hlen hall ih =>
    intro hwf hcl
    rename_i vs ts
    cases hwf with
    | tuple hwfall =>
      rw [clean] at hcl
      rw [val_to_json, json_to_val]
      rw [if_pos (by simp [valsToJson_length, hlen])]
      rw [treeSlots_roundtrip vs ts hlen fun p hp => by
        have hmem := List.of_mem_zip hp
        exact ih p hp (hwfall p.2 hmem.2) (cleanList_mem hcl p.1 hmem.1)]
      rfl
  | variantSome hlook hty2 ih =>
    intro hwf hcl
    rename_i cases2 k t2 v2
    cases hwf with
    | variant hne hnd hwfall =>
      have hwft : Wf t2 := hwfall (k, some t2) (caseLookup_mem hlook) t2 rfl
      rw [clean, cleanOpt] at hcl
      rw [val_to_json, option_val_to_json, json_to_val]
      simp only [get_single_entry_json]
      rw [treeCaseDecode_eq, hlook]
      dsimp only
      rw [ih hwft hcl]
      rfl
  | variantNone hlook =>
    intro _ _
    rw [val_to_json, option_val_to_json, json_to_val]
    simp only [get_single_entry_json]
    rw [treeCaseDecode_eq, hlook]
  | enum hmem =>
    intro _ _
    rw [val_to_json, json_to_val, if_pos (contains_true hmem)]
  | union hget hty2 ih =>
    intro hwf hcl
    rename_i cs i t2 v2
    cases hwf with
    | union hne hwfall =>
      have hwft : Wf t2 := hwfall t2 (List.get?_mem hget)
      rw [clean] at hcl
      rw [val_to_json, json_to_val]
      simp only [get_single_entry_json]
      rw [parseDec_natKey]
      dsimp only
      rw [treeUnionNth_eq, hget]
      dsimp only
      rw [ih hwft hcl]
      rfl
  | optNone => intro _ _; rw [val_to_json, option_val_to_json, json_to_val_option_null]
  | optSome hty2 ih =>
    intro hwf hcl
    rename_i t2 v2
    cases hwf with
    | option hwft =>
      have hvne : v2 ≠ .option none := by
        intro he
        subst he
        simp [clean] at hcl
      rw [clean_option_some v2 hvne] at hcl
      have hdec := ih hwft hcl
      have henc : val_to_json (.option (some v2)) = val_to_json v2 := by
        rw [val_to_json, option_val_to_json]
      rw [henc]
      cases hj : val_to_json v2 with
      | null =>
        exfalso
        rw [hj] at hdec
        obtain ⟨t3, _, hv3⟩ := json_to_val_null_ok hdec
        exact hvne hv3
      | bool b => rw [hj] at hdec; simp [json_to_val, hdec, Except.map]
      | num n => rw [hj] at hdec; simp [json_to_val, hdec, Except.map]
      | str s => rw [hj] at hdec; simp [json_to_val, hdec, Except.map]
      | arr els => rw [hj] at hdec; simp [json_to_val, hdec, Except.map]
      | obj kvs => rw [hj] at hdec; simp [json_to_val, hdec, Except.map]
  | resultOkSome hty2 ih =>
    intro hwf hcl
    rename_i t2 errT v2
    cases hwf with
    | result hwfok hwferr =>
      have hwft : Wf t2 := hwfok t2 rfl
      rw [clean, cleanOpt] at hcl
      rw [val_to_json, option_val_to_json]
      simp [json_to_val, get_single_entry_json, ih hwft hcl, Except.map]
  | resultOkNone =>
    intro _ _
    rw [val_to_json, option_val_to_json]
    simp [json_to_val, get_single_entry_json]
  | resultErrSome hty2 ih =>
    intro hwf hcl
    rename_i okT t2 v2
    cases hwf with
    | result hwfok hwferr =>
      have hwft : Wf t2 := hwferr t2 rfl
      rw [clean, cleanOpt] at hcl
      rw [val_to_json, option_val_to_json]
      simp [json_to_val, get_single_entry_json, ih hwft hcl, Except.map]
  | resultErrNone =>
    intro _ _
    rw [val_to_json, option_val_to_json]
    simp [json_to_val, get_single_entry_json]
  | flags hsub =>
    rename_i ns declared
    intro hwf _
    cases hwf with
    | flags hnd =>
      rw [val_to_json]
      simp [json_to_val, asStringsList_map_str,
        firstUnknown_none fun n hn => hsub.subset hn,
        filter_mem_sublist hsub hnd]

theorem jLookup_jRemove {x y : String} (h : x ≠ y) :
    ∀ kvs : List (String × Json), jLookup x (jRemove y kvs) = jLookup x kvs := by
  intro kvs
  induction kvs with
  | nil => rfl
  | cons kv rest ih =>
    obtain ⟨k2, v⟩ := kv
    rw [jRemove]
    by_cases hk : k2 = y
    · rw [if_pos hk, jLookup, if_neg (by rw [hk]; exact fun hx => h hx.symm)]
    · rw [if_neg hk, jLookup, jLookup, ih]

/-- The record tree decoder depends on the input object only through the
lookups of the declared field names: permuting the object or adding or
dropping unknown keys cannot change the result. -/
theorem treeFields_lookup_congr : ∀ (fts : List (String × Ty)) (kvs kvs2 : List (String × Json)),
    (fts.map Prod.fst).Nodup →
    (∀ p ∈ fts, jLookup p.1 kvs = jLookup p.1 kvs2) →
    treeFields fts kvs = treeFields fts kvs2 := by
  intro fts
  induction fts with
  | nil => intro kvs kvs2 _ _; rw [treeFields, treeFields]
  | cons ft rest ih =>
    intro kvs kvs2 hnd h
    obtain ⟨n, t⟩ := ft
    simp only [List.map_cons, List.nodup_cons] at hnd
    obtain ⟨hn, hnd2⟩ := hnd
    have hlook : ∀ p ∈ rest, jLookup p.1 (jRemove n kvs) = jLookup p.1 (jRemove n kvs2) := by
      intro p hp
      have hne : p.1 ≠ n := by
        intro he
        exact hn (he ▸ List.mem_map_of_mem Prod.fst hp)
      rw [jLookup_jRemove hne, jLookup_jRemove hne]
      exact h p (by simp [hp])
    rw [treeFields, treeFields, h (n, t) (by simp),
      ih (jRemove n kvs) (jRemove n kvs2) hnd2 hlook]

/-! ## Default value facts -/

theorem ty_strong_ind {P : Ty → Prop}
    (h : ∀ t, (∀ t2, sizeOf t2 < sizeOf t → P t2) → P t) : ∀ t, P t := by
  intro t
  have hn : ∀ (n : Nat) (t2 : Ty), sizeOf t2 < n → P t2 := by
    intro n
    induction n with
    | zero => intro t2 h2; omega
    | succ m ih => intro t2 _ ; exact h t2 fun t3 h3 => ih t3 (by omega)
  exact h t fun t2 h2 => hn (sizeOf t) t2 h2

theorem defaultFields_congr : ∀ fts : List (String × Ty),
    (∀ p ∈ fts, default_val p.2 = defaultSpec p.2) →
    defaultFields fts = defaultSpecFields fts := by
  intro fts
  induction fts with
  | nil => intro _; rfl
  | cons ft rest ih =>
    intro h
    obtain ⟨n, t⟩ := ft
    rw [defaultFields, defaultSpecFields, h (n, t) (by simp),
      ih fun p hp => h p (by simp [hp])]

theorem defaultSlots_congr : ∀ ts : List Ty,
    (∀ t ∈ ts, default_val t = defaultSpec t) →
    defaultSlots ts = defaultSpecSlots ts := by
  intro ts
  induction ts with
  | nil => intro _; rfl
  | cons t rest ih =>
    intro h
    rw [defaultSlots, defaultSpecSlots, h t (by simp),
      ih fun t2 ht2 => h t2 (by simp [ht2])]

/-- `default_val` computes exactly the spec's rules. -/
theorem default_val_eq_spec : ∀ t : Ty, default_val t = defaultSpec t := by
  refine ty_strong_ind fun t ih => ?step
  case step =>
    cases t
    case record fts =>
      rw [default_val.eq_def, defaultSpec.eq_def]
      dsimp only
      rw [defaultFields_congr fts fun p hp => ih p.2 (by
        have h1 := List.sizeOf_lt_of_mem hp
        obtain ⟨a, b⟩ := p
        simp at h1 ⊢
        omega)]
    case tuple ts =>
      rw [default_val.eq_def, defaultSpec.eq_def]
      dsimp only
      rw [defaultSlots_congr ts fun t2 ht2 => ih t2 (by
        have h1 := List.sizeOf_lt_of_mem ht2
        simp
        omega)]
    case variant cases2 =>
      cases cases2 with
      | nil => rw [default_val.eq_def, defaultSpec.eq_def]
      | cons c rest =>
        obtain ⟨n, pt⟩ := c
        cases pt with
        | none => rw [default_val.eq_def, defaultSpec.eq_def]
        | some t2 =>
          rw [default_val.eq_def, defaultSpec.eq_def]
          dsimp only
          rw [ih t2 (by simp; try omega)]
    case enum ns =>
      cases ns <;> (rw [default_val.eq_def, defaultSpec.eq_def]; simp [List.head?])
    case union cs =>
      cases cs with
      | nil => rw [default_val.eq_def, defaultSpec.eq_def]
      | cons t2 rest =>
        rw [default_val.eq_def, defaultSpec.eq_def]
        dsimp only
        rw [ih t2 (by simp; try omega)]
    case result okT errT =>
      cases okT with
      | none => rw [default_val.eq_def, defaultSpec.eq_def]
      | some t2 =>
        rw [default_val.eq_def, defaultSpec.eq_def]
        dsimp only
        rw [ih t2 (by simp; try omega)]
    all_goals (rw [default_val.eq_def, defaultSpec.eq_def])

theorem defaultFields_typed : ∀ fts : List (String × Ty),
    (∀ p ∈ fts, ∃ v, default_val p.2 = some v ∧ HasTy v p.2) →
    ∃ fvs, defaultFields fts = some fvs ∧ fvs.map Prod.fst = fts.map Prod.fst ∧
      ∀ p ∈ List.zip fvs fts, HasTy p.1.2 p.2.2 := by
  intro fts
  induction fts with
  | nil => intro _; exact ⟨[], rfl, rfl, by simp⟩
  | cons ft rest ih =>
    intro h
    obtain ⟨n, t⟩ := ft
    obtain ⟨v, hv, hty⟩ := h (n, t) (by simp)
    obtain ⟨fvs, hfvs, hnames, hall⟩ := ih fun p hp => h p (by simp [hp])
    refine ⟨(n, v) :: fvs, ?eq, by simp [hnames], ?typed⟩
    case eq => rw [defaultFields, hv, hfvs]; rfl
    case typed =>
      intro p hp
      rcases List.mem_cons.mp hp with hp2 | hp2
      · subst hp2; exact hty
      · exact hall p hp2

theorem defaultSlots_typed : ∀ ts : List Ty,
    (∀ t ∈ ts, ∃ v, default_val t = some v ∧ HasTy v t) →
    ∃ vs, defaultSlots ts = some vs ∧ vs.length = ts.length ∧
      ∀ p ∈ List.zip vs ts, HasTy p.1 p.2 := by
  intro ts
  induction ts with
  | nil => intro _; exact ⟨[], rfl, rfl, by simp⟩
  | cons t rest ih =>
    intro h
    obtain ⟨v, hv, hty⟩ := h t (by simp)
    obtain ⟨vs, hvs, hlen, hall⟩ := ih fun t2 ht2 => h t2 (by simp [ht2])
    refine ⟨v :: vs, ?eq, by simp [hlen], ?typed⟩
    case eq => rw [defaultSlots, hv, hvs]; rfl
    case typed =>
      intro p hp
      rcases List.mem_cons.mp hp with hp2 | hp2
      · subst hp2; exact hty
      · exact hall p hp2

/-- On well-formed descriptors, `default_val` succeeds and the synthesized
value is validly typed. -/
theorem default_val_typed : ∀ t : Ty, Wf t → ∃ v, default_val t = some v ∧ HasTy v t := by
  refine ty_strong_ind fun t ih => ?step
  case step =>
    intro hwf
    cases hwf
    case bool => exact ⟨_, rfl, .bool false⟩
    case u8 => exact ⟨_, rfl, .u8 0 (by omega)⟩
    case u16 => exact ⟨_, rfl, .u16 0 (by omega)⟩
    case u32 => exact ⟨_, rfl, .u32 0 (by omega)⟩
    case u64 => exact ⟨_, rfl, .u64 0 (by omega)⟩
    case s8 => exact ⟨_, rfl, .s8 0 (by omega) (by omega)⟩
    case s16 => exact ⟨_, rfl, .s16 0 (by omega) (by omega)⟩
    case s32 => exact ⟨_, rfl, .s32 0 (by omega) (by omega)⟩
    case s64 => exact ⟨_, rfl, .s64 0 (by omega) (by omega)⟩
    case float32 => exact ⟨_, rfl, .float32 (.finite 0)⟩
    case float64 => exact ⟨_, rfl, .float64 (.finite 0)⟩
    case char => exact ⟨_, rfl, .char (Char.ofNat 0)⟩
    case string => exact ⟨_, rfl, .string ""⟩
    case list t2 hwf2 => exact ⟨_, rfl, .list (by simp)⟩
    case record fts hnd hall =>
      obtain ⟨fvs, hfvs, hnames, htyped⟩ := defaultFields_typed fts fun p hp => by
        refine ih p.2 ?sz (hall p hp)
        case sz =>
          have h1 := List.sizeOf_lt_of_mem hp
          obtain ⟨a, b⟩ := p
          simp at h1 ⊢
          omega
      exact ⟨.record fvs, by rw [default_val, hfvs]; rfl, .record hnames htyped⟩
    case tuple ts hall =>
      obtain ⟨vs, hvs, hlen, htyped⟩ := defaultSlots_typed ts fun t2 ht2 => by
        refine ih t2 ?sz (hall t2 ht2)
        case sz =>
          have h1 := List.sizeOf_lt_of_mem ht2
          simp
          omega
      exact ⟨.tuple vs, by rw [default_val, hvs]; rfl, .tuple hlen htyped⟩
    case variant cases2 hne hnd hall =>
      cases cases2 with
      | nil => exact absurd rfl hne
      | cons c rest =>
        obtain ⟨n, pt⟩ := c
        cases pt with
        | none =>
          refine ⟨.variant n none, by rw [default_val], .variantNone ?look⟩
          case look => rw [caseLookup, if_pos rfl]
        | some t2 =>
          obtain ⟨v2, hv2, hty2⟩ := ih t2 (by simp; try omega)
            (hall (n, some t2) (by simp) t2 rfl)
          refine ⟨.variant n (some v2), by rw [default_val, hv2]; rfl, .variantSome ?look hty2⟩
          case look => rw [caseLookup, if_pos rfl]
    case enum ns hne hnd =>
      cases ns with
      | nil => exact absurd rfl hne
      | cons n rest => exact ⟨.enum n, by rw [default_val], .enum (by simp)⟩
    case union cs hne hall =>
      cases cs with
      | nil => exact absurd rfl hne
      | cons t2 rest =>
        obtain ⟨v2, hv2, hty2⟩ := ih t2 (by simp; try omega) (hall t2 (by simp))
        exact ⟨.union 0 v2, by rw [default_val, hv2]; rfl, .union (by rw [List.get?]) hty2⟩
    case option t2 hwf2 => exact ⟨_, rfl, .optNone⟩
    case result okT errT hok herr =>
      cases okT with
      | none => exact ⟨.result true none, by rw [default_val], .resultOkNone⟩
      | some t2 =>
        obtain ⟨v2, hv2, hty2⟩ := ih t2 (by simp; try omega) (hok t2 rfl)
        exact ⟨.result true (some v2), by rw [default_val, hv2]; rfl, .resultOkSome hty2⟩
    case flags ns hnd => exact ⟨_, rfl, .flags (List.nil_sublist ns)⟩

/-! ## Claim theorems -/

/-- Claim C1 (amended): for every well-formed TypeDescriptor `t` and every
Value validly constructed against it that contains no infinite float and no
`some(none)` option payload, tree-decoding the tree-encoding yields the
value again: `json_to_val t (val_to_json v) = ok v`. -/
theorem c1_tree_roundtrip (v : Val) (t : Ty) (hty : HasTy v t) (hwf : Wf t)
    (hcl : clean v = true) : json_to_val t (val_to_json v) = .ok v :=
  tree_roundtrip hty hwf hcl

theorem c1_tree_roundtrip_witness :
    HasTy (.u32 5) .u32 ∧ Wf .u32 ∧ clean (.u32 5) = true ∧
    json_to_val .u32 (val_to_json (.u32 5)) = .ok (.u32 5) :=
  ⟨.u32 5 (by omega), .u32, by simp [clean],
    c1_tree_roundtrip _ _ (.u32 5 (by omega)) .u32 (by simp [clean])⟩

/-- Claim C1 counterexample: the value `some(none)` validly constructed
against `Option(Option(Bool))` tree-encodes to `null`, which decodes to
`none`, not `some(none)` — so the round trip fails as stated. -/
theorem c1_counterexample :
    HasTy (.option (some (.option none))) (.option (.option .bool))
    ∧ Wf (.option (.option .bool))
    ∧ json_to_val (.option (.option .bool)) (val_to_json (.option (some (.option none))))
        = .ok (.option none)
    ∧ Val.option none ≠ Val.option (some (.option none)) := by
  refine ⟨.optSome .optNone, .option (.option .bool), ?dec, by simp⟩
  case dec =>
    have henc : val_to_json (.option (some (.option none))) = .null := by
      rw [val_to_json, option_val_to_json, val_to_json, option_val_to_json]
    rw [henc, json_to_val_option_null]

/-- Claim C3: tree-encoding `Float64 NaN` and decoding the string back
reproduces NaN, and decoding `"Infinity"`/`"-Infinity"` yields the
correctly-signed infinity; but the encoder's infinite-spelling branch is
inverted (`is_sign_negative` maps to `"Infinity"`), so encoding `+∞`
produces `"-Infinity"` and the decode of the encoding flips the sign. -/
theorem c3_float_specials :
    json_to_val .float64 (val_to_json (.float64 .nan)) = .ok (.float64 .nan)
    ∧ json_to_val .float64 (.str "Infinity") = .ok (.float64 .inf)
    ∧ json_to_val .float64 (.str "-Infinity") = .ok (.float64 .neginf)
    ∧ val_to_json (.float64 .inf) = .str "-Infinity"
    ∧ val_to_json (.float64 .neginf) = .str "Infinity"
    ∧ json_to_val .float64 (val_to_json (.float64 .inf)) = .ok (.float64 .neginf) := by
  refine ⟨?nan, ?inf, ?neginf, rfl, rfl, ?flip⟩
  case nan => rw [val_to_json]; simp [floatToJson, json_to_val]
  case inf => simp [json_to_val]
  case neginf => simp [json_to_val]
  case flip => rw [val_to_json]; simp [floatToJson, json_to_val]

/-- Claim C9: tree-decoding a Tuple requires an array whose length equals
the slot count exactly; any mismatch fails with an arity error naming the
expected arity, and a non-array input is a type mismatch. -/
theorem c9_tuple_arity :
    (∀ (ts : List Ty) (els : List Json), els.length ≠ ts.length →
      json_to_val (.tuple ts) (.arr els) = .error (.arityMismatch ts.length))
    ∧ (∀ (ts : List Ty) (els : List Json), els.length = ts.length →
      json_to_val (.tuple ts) (.arr els) = (treeSlots ts els).map .tuple)
    ∧ (∀ (ts : List Ty) (j : Json), (∀ els, j ≠ .arr els) →
      isTypeMismatch (json_to_val (.tuple ts) j) = true) := by
  refine ⟨?mismatch, ?match2, ?notarr⟩
  case mismatch =>
    intro ts els h
    rw [json_to_val, if_neg h]
  case match2 =>
    intro ts els h
    rw [json_to_val, if_pos h]
  case notarr =>
    intro ts j h
    cases j with
    | arr els => exact absurd rfl (h els)
    | null => simp [json_to_val, isTypeMismatch]
    | bool b => simp [json_to_val, isTypeMismatch]
    | num n => simp [json_to_val, isTypeMismatch]
    | str s => simp [json_to_val, isTypeMismatch]
    | obj kvs => simp [json_to_val, isTypeMismatch]

theorem c9_tuple_arity_witness :
    ([(.num (.int 1)), (.num (.int 2)), (.num (.int 3))] : List Json).length ≠
      ([.u32, .u32] : List Ty).length
    ∧ json_to_val (.tuple [.u32, .u32])
        (.arr [.num (.int 1), .num (.int 2), .num (.int 3)])
        = .error (.arityMismatch 2) :=
  ⟨by decide, c9_tuple_arity.1 [.u32, .u32] [.num (.int 1), .num (.int 2), .num (.int 3)]
    (by decide)⟩

/-- Claim C10: for every inner type, tree-encoding `some(none)` against
`Option(Option(t))` produces JSON `null`, the same encoding as `none`
(the encoder is not injective on nested options), and tree-decoding that
encoding yields `none` rather than `some(none)`. -/
theorem c10_nested_option_collapse (t : Ty) :
    val_to_json (.option (some (.option none))) = .null
    ∧ val_to_json (.option none) = .null
    ∧ json_to_val (.option (.option t)) (val_to_json (.option (some (.option none))))
        = .ok (.option none)
    ∧ Val.option none ≠ Val.option (some (.option none)) := by
  have henc : val_to_json (.option (some (.option none))) = .null := by
    rw [val_to_json, option_val_to_json, val_to_json, option_val_to_json]
  refine ⟨henc, by rw [val_to_json, option_val_to_json], ?dec, by simp⟩
  case dec => rw [henc, json_to_val_option_null]

/-- Claim C4: in tree mode a Record decode looks each declared field up by
name (object key order and unknown extra keys are irrelevant), an absent
field is decoded from JSON `null` — so a missing non-Option field is a type
mismatch while a missing Option field decodes to `none`. -/
theorem c4_record_null_fill :
    (∀ (fts : List (String × Ty)) (kvs : List (String × Json)),
      json_to_val (.record fts) (.obj kvs) = (treeFields fts kvs).map .record)
    ∧ (∀ (fts : List (String × Ty)) (kvs kvs2 : List (String × Json)),
      (fts.map Prod.fst).Nodup →
      (∀ p ∈ fts, jLookup p.1 kvs = jLookup p.1 kvs2) →
      json_to_val (.record fts) (.obj kvs) = json_to_val (.record fts) (.obj kvs2))
    ∧ (∀ (n : String) (ft : Ty) (rest : List (String × Ty)) (kvs : List (String × Json)),
      jLookup n kvs = none →
      treeFields ((n, ft) :: rest) kvs =
        match json_to_val ft .null with
        | .error e => .error e
        | .ok v =>
          match treeFields rest (jRemove n kvs) with
          | .error e => .error e
          | .ok tail => .ok ((n, v) :: tail))
    ∧ (∀ t : Ty, t.isOption = false → isTypeMismatch (json_to_val t .null) = true)
    ∧ (∀ t : Ty, json_to_val (.option t) .null = .ok (.option none)) := by
  refine ⟨?unfold, ?congr2, ?nullfill, json_to_val_null_not_option, json_to_val_option_null⟩
  case unfold => intro fts kvs; rw [json_to_val]
  case congr2 =>
    intro fts kvs kvs2 hnd h
    rw [json_to_val, json_to_val, treeFields_lookup_congr fts kvs kvs2 hnd h]
  case nullfill =>
    intro n ft rest kvs h
    rw [treeFields, h]
    rfl

theorem c4_record_null_fill_witness :
    (([("x", Ty.u32)] : List (String × Ty)).map Prod.fst).Nodup
    ∧ (∀ p ∈ ([("x", Ty.u32)] : List (String × Ty)),
        jLookup p.1 [("z", Json.bool true), ("x", .num (.int 1))]
          = jLookup p.1 [("x", .num (.int 1))])
    ∧ json_to_val (.record [("x", .u32)])
        (.obj [("z", Json.bool true), ("x", .num (.int 1))])
      = json_to_val (.record [("x", .u32)]) (.obj [("x", .num (.int 1))])
    ∧ Ty.isOption .u32 = false
    ∧ isTypeMismatch (json_to_val .u32 .null) = true := by
  refine ⟨by simp, ?lk, ?eq, rfl, ?tm⟩
  case lk =>
    intro p hp
    simp only [List.mem_singleton] at hp
    subst hp
    rfl
  case eq =>
    refine c4_record_null_fill.2.1 [("x", .u32)] _ _ (by simp) ?lk2
    case lk2 =>
      intro p hp
      simp only [List.mem_singleton] at hp
      subst hp
      rfl
  case tm => exact c4_record_null_fill.2.2.2.1 .u32 rfl

/-- Claim C6: in streaming mode an integer token decodes into `Float32`
exactly when it fits the signed 16-bit range and into `Float64` exactly
when it fits the signed 32-bit range, the result being the widened float;
out-of-range integers fail with an out-of-range error. -/
theorem c6_stream_int_to_float :
    (∀ i : Int, streamAny .float32 (.num (.int i))
      = if -32768 ≤ i ∧ i ≤ 32767 then .ok (.float32 (.finite (i : Rat)))
        else .error (.outOfRange "float32"))
    ∧ (∀ i : Int, streamAny .float64 (.num (.int i))
      = if -2147483648 ≤ i ∧ i ≤ 2147483647 then .ok (.float64 (.finite (i : Rat)))
        else .error (.outOfRange "float64")) := by
  constructor
  · intro i
    by_cases hneg : i < 0
    · by_cases hc : -32768 ≤ i ∧ i ≤ 32767
      · rw [if_pos hc]
        simp [streamAny, if_pos hneg, visitI64, hc]
      · rw [if_neg hc]
        simp [streamAny, if_pos hneg, visitI64, show ¬(-32768 ≤ i ∧ i ≤ 32767) from hc]
    · have hcast : ((i.toNat : Rat)) = (i : Rat) := by
        rw [← Int.cast_natCast]
        exact congrArg _ (Int.toNat_of_nonneg (by omega))
      by_cases hc : -32768 ≤ i ∧ i ≤ 32767
      · rw [if_pos hc]
        simp [streamAny, if_neg hneg, visitU64, show i.toNat ≤ 32767 from by omega, hcast]
      · rw [if_neg hc]
        simp [streamAny, if_neg hneg, visitU64, show ¬(i.toNat ≤ 32767) from by omega]
  · intro i
    by_cases hneg : i < 0
    · by_cases hc : -2147483648 ≤ i ∧ i ≤ 2147483647
      · rw [if_pos hc]
        simp [streamAny, if_pos hneg, visitI64, hc]
      · rw [if_neg hc]
        simp [streamAny, if_pos hneg, visitI64, show ¬(-2147483648 ≤ i ∧ i ≤ 2147483647)
          from hc]
    · have hcast : ((i.toNat : Rat)) = (i : Rat) := by
        rw [← Int.cast_natCast]
        exact congrArg _ (Int.toNat_of_nonneg (by omega))
      by_cases hc : -2147483648 ≤ i ∧ i ≤ 2147483647
      · rw [if_pos hc]
        simp [streamAny, if_neg hneg, visitU64, show i.toNat ≤ 2147483647 from by omega,
          hcast]
      · rw [if_neg hc]
        simp [streamAny, if_neg hneg, visitU64, show ¬(i.toNat ≤ 2147483647) from by omega]

/-- Claim C7: in streaming mode a string decoded against `List(U8)` is
interpreted as standard base64 and yields the byte-list value (failing on
invalid base64), while the tree decoder rejects any string for `List(U8)`
with a type mismatch (it requires an array). -/
theorem c7_base64_byte_lists :
    (∀ bs : List Nat, (∀ b ∈ bs, b < 256) →
      streamAny (.list .u8) (.str (base64Encode bs)) = .ok (.list (bs.map Val.u8)))
    ∧ (∀ s : String, base64Decode s = none →
      streamAny (.list .u8) (.str s) = .error .badBase64)
    ∧ (∀ s : String, json_to_val (.list .u8) (.str s) = .error (.typeMismatch "list")) := by
  refine ⟨?round, ?bad, ?tree⟩
  case round =>
    intro bs h
    have hdec : base64Decode (base64Encode bs) = some bs := base64_roundtrip bs h
    simp [streamAny, visitStr, hdec]
  case bad =>
    intro s h
    simp [streamAny, visitStr, h]
  case tree =>
    intro s
    simp [json_to_val]

theorem c7_base64_byte_lists_witness :
    (∀ b ∈ ([104, 105] : List Nat), b < 256)
    ∧ streamAny (.list .u8) (.str (base64Encode [104, 105]))
        = .ok (.list [.u8 104, .u8 105])
    ∧ base64Decode "!" = none
    ∧ streamAny (.list .u8) (.str "!") = .error .badBase64 :=
  ⟨by decide, c7_base64_byte_lists.1 [104, 105] (by decide), rfl,
    c7_base64_byte_lists.2.1 "!" rfl⟩

/-- Claim C8: on every well-formed TypeDescriptor, `default_val` returns
exactly the value prescribed by the spec's rules (numerics zero, bool
false, char NUL, string/list/flags empty, record/tuple recursively
defaulted in order, enum/variant/union first declared case, option none,
result the Ok branch with the ok-type default if declared, else none) and
that value is validly typed against the descriptor. -/
theorem c8_default_val (t : Ty) (hwf : Wf t) :
    ∃ v, default_val t = some v ∧ defaultSpec t = some v ∧ HasTy v t := by
  obtain ⟨v, hv, hty⟩ := default_val_typed t hwf
  exact ⟨v, hv, default_val_eq_spec t ▸ hv, hty⟩

theorem c8_default_val_witness :
    Wf (.variant [("a", some .u32)]) ∧
    ∃ v, default_val (.variant [("a", some .u32)]) = some v
      ∧ defaultSpec (.variant [("a", some .u32)]) = some v
      ∧ HasTy v (.variant [("a", some .u32)]) := by
  have hwf : Wf (.variant [("a", some .u32)]) := by
    refine .variant (by simp) (by simp) ?cases
    intro p hp t ht
    simp only [List.mem_singleton] at hp
    subst hp
    cases ht
    exact .u32
  exact ⟨hwf, c8_default_val _ hwf⟩

/-- Claim C2: re-exposing a call's results as one response encodes zero
results as an empty object, one result as `{"result": <encoded>}` except
that a single `Result`-typed result is flattened (its own
`{"result":…}`/`{"error":…}` object is returned directly), and two or more
results as `{"results": [...]}` in declaration order. -/
theorem c2_call_response_convention :
    callResponse [] = .obj []
    ∧ (∀ (t : Ty) (v : Val), t.isResult = false →
        callResponse [(t, v)] = .obj [("result", val_to_json v)])
    ∧ (∀ (okT errT : Option Ty) (v : Val),
        callResponse [(.result okT errT, v)] = val_to_json v)
    ∧ (∀ (okT errT : Option Ty) (v : Val), HasTy v (.result okT errT) →
        ∃ k j, val_to_json v = .obj [(k, j)] ∧ (k = "result" ∨ k = "error"))
    ∧ (∀ (r1 r2 : Ty × Val) (rs : List (Ty × Val)),
        callResponse (r1 :: r2 :: rs)
          = .obj [("results", .arr ((r1 :: r2 :: rs).map (fun r => val_to_json r.2)))]) := by
  refine ⟨rfl, ?single, ?flat, ?shape, ?many⟩
  case single =>
    intro t v h
    rw [callResponse, if_neg (by simp [h])]
  case flat =>
    intro okT errT v
    rw [callResponse, if_pos (show (Ty.result okT errT).isResult = true from rfl)]
  case shape =>
    intro okT errT v hty
    cases hty with
    | resultOkSome hty2 =>
      rename_i t2 v2
      exact ⟨"result", option_val_to_json (some v2), by simp [val_to_json], Or.inl rfl⟩
    | resultOkNone =>
      exact ⟨"result", option_val_to_json none, by simp [val_to_json], Or.inl rfl⟩
    | resultErrSome hty2 =>
      rename_i t2 v2
      exact ⟨"error", option_val_to_json (some v2), by simp [val_to_json], Or.inr rfl⟩
    | resultErrNone =>
      exact ⟨"error", option_val_to_json none, by simp [val_to_json], Or.inr rfl⟩
  case many =>
    intro r1 r2 rs
    rw [callResponse]
    · simp
    · intro t v h
      simp at h

theorem c2_call_response_witness :
    Ty.isResult .u32 = false
    ∧ callResponse [(.u32, .u32 5)] = .obj [("result", .num (.int 5))]
    ∧ callResponse [(.result (some .u32) none, .result true (some (.u32 1)))]
        = .obj [("result", .num (.int 1))]
    ∧ HasTy (.result true (some (.u32 1))) (.result (some .u32) none)
    ∧ (∃ k j, val_to_json (.result true (some (.u32 1))) = .obj [(k, j)]
        ∧ (k = "result" ∨ k = "error")) := by
  refine ⟨rfl, ?single, ?flat, .resultOkSome (.u32 1 (by omega)), ?ex⟩
  case single =>
    rw [c2_call_response_convention.2.1 .u32 (.u32 5) rfl]
    simp [val_to_json]
  case flat =>
    rw [c2_call_response_convention.2.2.1 (some .u32) none (.result true (some (.u32 1)))]
    simp [val_to_json, option_val_to_json]
  case ex =>
    exact c2_call_response_convention.2.2.2.1 (some .u32) none _
      (.resultOkSome (.u32 1 (by omega)))

/-- Claim C5 counterexample: for the payloadless case `c` of
`Variant{c}`, the tree decoder ignores the accompanying value `5`, but the
streaming decoder consumes it as unit and rejects anything but `null` — so
the streaming semantics is not the tree semantics plus trailing-key
detection only. -/
theorem c5_counterexample :
    json_to_val (.variant [("c", none)]) (.obj [("c", .num (.int 5))])
      = .ok (.variant "c" none)
    ∧ streamAny (.variant [("c", none)]) (.obj [("c", .num (.int 5))])
      = .error (.typeMismatch "unit") := by
  constructor
  · simp [json_to_val, get_single_entry_json, treeCaseDecode]
  · simp [streamAny, visitMap, streamCaseDecode, streamOptionalValue]

/-- Claim C5 (amended): in streaming mode, Variant, Union and Result
decoding keeps the tree decoder's single-key shape — one key naming the
case/index/side, an empty map an error, the payload decoded against that
case's type (with the streaming decoder) — except that a payloadless
case's accompanying value is consumed as unit and must be JSON `null`
rather than being ignored; any second map key is a hard error. -/
theorem c5_stream_single_key :
    (∀ cases2, streamAny (.variant cases2) (.obj []) = .error (.emptyMap "variant"))
    ∧ (∀ cases2 k jv, caseLookup k cases2 = none →
        streamAny (.variant cases2) (.obj [(k, jv)]) = .error (.unknownCase k))
    ∧ (∀ cases2 k t jv, caseLookup k cases2 = some (some t) →
        streamAny (.variant cases2) (.obj [(k, jv)])
          = (streamSeed t jv).map (fun v => .variant k (some v)))
    ∧ (∀ cases2 k jv, caseLookup k cases2 = some none →
        streamAny (.variant cases2) (.obj [(k, jv)])
          = match jv with
            | .null => .ok (.variant k none)
            | _ => .error (.typeMismatch "unit"))
    ∧ (∀ cases2 k jv rest2, rest2 ≠ [] →
        streamAny (.variant cases2) (.obj ((k, jv) :: rest2))
          = match streamAny (.variant cases2) (.obj [(k, jv)]) with
            | .error e => .error e
            | .ok _ => .error (.tooMany 1))
    ∧ (∀ cs, streamAny (.union cs) (.obj []) = .error (.emptyMap "union"))
    ∧ (∀ cs k jv, parseDec k = none →
        streamAny (.union cs) (.obj [(k, jv)]) = .error (.malformedKey k))
    ∧ (∀ cs k idx t jv, parseDec k = some idx → cs.get? idx = some t →
        streamAny (.union cs) (.obj [(k, jv)])
          = (streamSeed t jv).map (.union idx ·))
    ∧ (∀ cs k jv rest2, rest2 ≠ [] →
        streamAny (.union cs) (.obj ((k, jv) :: rest2))
          = match streamAny (.union cs) (.obj [(k, jv)]) with
            | .error e => .error e
            | .ok _ => .error (.tooMany 1))
    ∧ (∀ okT errT, streamAny (.result okT errT) (.obj []) = .error (.emptyMap "result"))
    ∧ (∀ errT t jv, streamAny (.result (some t) errT) (.obj [("result", jv)])
        = (streamSeed t jv).map (fun v => .result true (some v)))
    ∧ (∀ errT jv, streamAny (.result none errT) (.obj [("result", jv)])
        = match jv with
          | .null => .ok (.result true none)
          | _ => .error (.typeMismatch "unit"))
    ∧ (∀ okT t jv, streamAny (.result okT (some t)) (.obj [("error", jv)])
        = (streamSeed t jv).map (fun v => .result false (some v)))
    ∧ (∀ okT jv, streamAny (.result okT none) (.obj [("error", jv)])
        = match jv with
          | .null => .ok (.result false none)
          | _ => .error (.typeMismatch "unit"))
    ∧ (∀ okT errT k jv, k ≠ "result" → k ≠ "error" →
        streamAny (.result okT errT) (.obj [(k, jv)]) = .error (.malformedKey k))
    ∧ (∀ okT errT k jv rest2, rest2 ≠ [] →
        streamAny (.result okT errT) (.obj ((k, jv) :: rest2))
          = match streamAny (.result okT errT) (.obj [(k, jv)]) with
            | .error e => .error e
            | .ok _ => .error (.tooMany 1)) := by
  refine ⟨?vempty, ?vunk, ?vpay, ?vnopay, ?vtrail, ?uempty, ?ubadkey, ?upay, ?utrail,
    ?rempty, ?rokpay, ?roknone, ?rerrpay, ?rerrnone, ?rbadkey, ?rtrail⟩
  case vempty => intro cases2; simp [streamAny, visitMap]
  case vunk => intro cases2 k jv h; simp [streamAny, visitMap, streamCaseDecode_eq, h]
  case vpay =>
    intro cases2 k t jv h
    cases hs : streamSeed t jv <;>
      simp [streamAny, visitMap, streamCaseDecode_eq, streamOptionalValue, h, hs, Except.map]
  case vnopay =>
    intro cases2 k jv h
    cases jv <;> simp [streamAny, visitMap, streamCaseDecode_eq, streamOptionalValue, h]
  case vtrail =>
    intro cases2 k jv rest2 hne
    cases hs : streamCaseDecode cases2 k jv with
    | error e => simp [streamAny, visitMap, hs]
    | ok pl =>
      cases rest2 with
      | nil => exact absurd rfl hne
      | cons e2 rest => simp [streamAny, visitMap, hs]
  case uempty => intro cs; simp [streamAny, visitMap]
  case ubadkey => intro cs k jv h; simp [streamAny, visitMap, h]
  case upay =>
    intro cs k idx t jv hp hg
    have hg2 : cs[idx]? = some t := by rw [← List.get?_eq_getElem?]; exact hg
    cases hs : streamSeed t jv <;>
      simp [streamAny, visitMap, hp, streamUnionNth_eq, hg, hg2, hs, Except.map]
  case utrail =>
    intro cs k jv rest2 hne
    cases hp : parseDec k with
    | none => simp [streamAny, visitMap, hp]
    | some idx =>
      cases hn : streamUnionNth idx cs idx jv with
      | error e => simp [streamAny, visitMap, hp, hn]
      | ok v =>
        cases rest2 with
        | nil => exact absurd rfl hne
        | cons e2 rest => simp [streamAny, visitMap, hp, hn]
  case rempty =>
    intro okT errT
    simp only [streamAny]
    rw [visitMap.eq_def]
  case rokpay =>
    intro errT t jv
    cases hs : streamSeed t jv <;>
      (simp only [streamAny]; rw [visitMap.eq_def]; simp [streamOptionalValue, hs, Except.map])
  case roknone =>
    intro errT jv
    cases jv <;> (simp only [streamAny]; rw [visitMap.eq_def]; simp [streamOptionalValue])
  case rerrpay =>
    intro okT t jv
    cases hs : streamSeed t jv <;>
      (simp only [streamAny]; rw [visitMap.eq_def]; simp [streamOptionalValue, hs, Except.map])
  case rerrnone =>
    intro okT jv
    cases jv <;> (simp only [streamAny]; rw [visitMap.eq_def]; simp [streamOptionalValue])
  case rbadkey =>
    intro okT errT k jv h1 h2
    simp only [streamAny]
    rw [visitMap.eq_def]
    simp [h1, h2]
  case rtrail =>
    intro okT errT k jv rest2 hne
    by_cases hk1 : k = "result"
    · subst hk1
      cases okT with
      | some t =>
        cases hs : streamSeed t jv with
        | error e =>
          simp only [streamAny]
          rw [visitMap.eq_def, visitMap.eq_def]
          simp [streamOptionalValue, hs, Except.map]
        | ok pv =>
          cases rest2 with
          | nil => exact absurd rfl hne
          | cons e2 rest =>
            simp only [streamAny]
            rw [visitMap.eq_def, visitMap.eq_def]
            simp [streamOptionalValue, hs, Except.map]
      | none =>
        cases rest2 with
        | nil => exact absurd rfl hne
        | cons e2 rest =>
          cases jv <;>
            (simp only [streamAny]; rw [visitMap.eq_def, visitMap.eq_def];
             simp [streamOptionalValue])
    · by_cases hk2 : k = "error"
      · subst hk2
        cases errT with
        | some t =>
          cases hs : streamSeed t jv with
          | error e =>
          simp only [streamAny]
          rw [visitMap.eq_def, visitMap.eq_def]
          simp [streamOptionalValue, hs, Except.map]
          | ok pv =>
            cases rest2 with
            | nil => exact absurd rfl hne
            | cons e2 rest =>
              simp only [streamAny]
              rw [visitMap.eq_def, visitMap.eq_def]
              simp [streamOptionalValue, hs, Except.map]
        | none =>
          cases rest2 with
          | nil => exact absurd rfl hne
          | cons e2 rest =>
            cases jv <;>
            (simp only [streamAny]; rw [visitMap.eq_def, visitMap.eq_def];
             simp [streamOptionalValue])
      · simp only [streamAny]
        rw [visitMap.eq_def, visitMap.eq_def]
        simp [hk1, hk2]

theorem c5_stream_single_key_witness :
    caseLookup "a" [("a", some Ty.u32)] = some (some .u32)
    ∧ streamAny (.variant [("a", some .u32)]) (.obj [("a", .num (.int 3))])
        = (streamSeed .u32 (.num (.int 3))).map (fun v => .variant "a" (some v))
    ∧ caseLookup "c" [("c", (none : Option Ty))] = some none
    ∧ streamAny (.variant [("c", none)]) (.obj [("c", .null)]) = .ok (.variant "c" none)
    ∧ (([("x", Json.null)] : List (String × Json)) ≠ [])
    ∧ streamAny (.variant [("c", none)]) (.obj [("c", .null), ("x", .null)])
        = (match streamAny (.variant [("c", none)]) (.obj [("c", .null)]) with
           | .error e => .error e
           | .ok _ => .error (.tooMany 1)) :=
  ⟨rfl,
   c5_stream_single_key.2.2.1 [("a", some .u32)] "a" .u32 (.num (.int 3)) rfl,
   rfl,
   (c5_stream_single_key.2.2.2.1 [("c", none)] "c" .null rfl).trans rfl,
   by simp,
   c5_stream_single_key.2.2.2.2.1 [("c", none)] "c" .null [("x", .null)] (by simp)⟩
